/-
Verification of the storage-and-concurrency core of a disk-oriented
storage manager: an LRU replacer, a buffer pool manager, an extendible
hash table (directory split/merge), and a wound-wait lock manager.

Each component is shallowly embedded: the C++ state is an explicit Lean
structure, each operation is a pure function from state to
(result, new state, emitted disk/latch events), translated line by line
from the corresponding source file.
-/
import Mathlib

set_option maxHeartbeats 1000000

namespace StorageCore

/-! ## LRU replacer (src/buffer/lru_replacer.cpp)

The C++ object keeps `lru_list_` (a doubly-linked list of evictable
frame ids, most recently unpinned at the front) together with
`lru_hash_`, a map from frame id to list position used only for O(1)
membership test and erasure.  The Lean model keeps the list; hash
membership is list membership. -/

structure LRUReplacer where
  lru_list : List Nat
  max_size : Nat
deriving Repr, DecidableEq

namespace LRUReplacer

/-- `LRUReplacer::Victim`: fails when the list is empty, otherwise
removes and returns the back element. -/
def Victim (r : LRUReplacer) : Option Nat × LRUReplacer :=
  if r.lru_list = [] then (none, r)
  else (r.lru_list.getLast?, { r with lru_list := r.lru_list.dropLast })

/-- `LRUReplacer::Pin`: if the frame is present, erase it; else no-op. -/
def Pin (r : LRUReplacer) (f : Nat) : LRUReplacer :=
  if f ∈ r.lru_list then { r with lru_list := r.lru_list.erase f } else r

/-- `LRUReplacer::Unpin`: no-op if the frame is already present or the
list is at capacity; otherwise push the frame at the front. -/
def Unpin (r : LRUReplacer) (f : Nat) : LRUReplacer :=
  if f ∈ r.lru_list then r
  else if r.max_size ≤ r.lru_list.length then r
  else { r with lru_list := f :: r.lru_list }

/-- `LRUReplacer::Size`. -/
def size (r : LRUReplacer) : Nat := r.lru_list.length

end LRUReplacer

/-- C9: For the LRU replacer: `Victim` fails exactly when no frame is
evictable and otherwise removes and returns the frame least recently
inserted into the evictable set (the back of the list, since insertion
is at the front); `Unpin f` inserts `f` at the front only when `f` is
absent and the size is below `max_size`, and is a no-op when `f` is
already present; `Pin f` removes `f` if present and is idempotent. -/
theorem C9_lru_replacer_ops (r : LRUReplacer) (f : Nat)
    (hnd : r.lru_list.Nodup) :
    ((r.Victim.1 = none ↔ r.lru_list = [])
  ∧ (∀ h : r.lru_list ≠ [],
       r.Victim.1 = some (r.lru_list.getLast h)
       ∧ r.Victim.2.lru_list = r.lru_list.dropLast)
  ∧ (f ∈ r.lru_list → r.Unpin f = r)
  ∧ (f ∉ r.lru_list → r.lru_list.length < r.max_size →
       (r.Unpin f).lru_list = f :: r.lru_list)
  ∧ (f ∉ r.lru_list → r.max_size ≤ r.lru_list.length → r.Unpin f = r)
  ∧ ((r.Pin f).lru_list = r.lru_list.erase f)
  ∧ ((r.Pin f).Pin f = r.Pin f)) := by
  refine ⟨?_, ?_, ?_, ?_, ?_, ?_, ?_⟩
  · unfold LRUReplacer.Victim
    by_cases h : r.lru_list = [] <;> simp [h, List.getLast?_eq_getLast,
      List.getLast?_eq_none_iff]
  · intro h
    unfold LRUReplacer.Victim
    simp [h, List.getLast?_eq_getLast r.lru_list h]
  · intro hm
    unfold LRUReplacer.Unpin
    simp [hm]
  · intro hm hlen
    unfold LRUReplacer.Unpin
    simp [hm, Nat.not_le.mpr hlen]
  · intro hm hlen
    unfold LRUReplacer.Unpin
    simp [hm, hlen]
  · unfold LRUReplacer.Pin
    by_cases hm : f ∈ r.lru_list
    · simp [hm]
    · simp [hm, List.erase_of_not_mem hm]
  · unfold LRUReplacer.Pin
    by_cases hm : f ∈ r.lru_list
    · simp only [hm, if_true]
      have : f ∉ r.lru_list.erase f := by
        intro hc
        exact absurd (List.Nodup.mem_erase_iff hnd |>.mp hc).1 (by simp)
      simp [this]
    · simp [hm]

/-- Witness for C9 at a concrete replacer. -/
theorem C9_lru_replacer_ops_witness :
    (({ lru_list := [2, 1, 0], max_size := 3 : LRUReplacer }).Victim.1
        = none ↔ ([2, 1, 0] : List Nat) = [])
  ∧ (∀ h : ([2, 1, 0] : List Nat) ≠ [],
       ({ lru_list := [2, 1, 0], max_size := 3 : LRUReplacer }).Victim.1
         = some (([2, 1, 0] : List Nat).getLast h)
       ∧ ({ lru_list := [2, 1, 0], max_size := 3 :
             LRUReplacer }).Victim.2.lru_list
         = ([2, 1, 0] : List Nat).dropLast)
  ∧ ((5 : Nat) ∈ ([2, 1, 0] : List Nat) →
       ({ lru_list := [2, 1, 0], max_size := 3 : LRUReplacer }).Unpin 5
         = { lru_list := [2, 1, 0], max_size := 3 })
  ∧ ((5 : Nat) ∉ ([2, 1, 0] : List Nat) →
       ([2, 1, 0] : List Nat).length < 3 →
       (({ lru_list := [2, 1, 0], max_size := 3 : LRUReplacer }).Unpin
           5).lru_list = 5 :: [2, 1, 0])
  ∧ ((5 : Nat) ∉ ([2, 1, 0] : List Nat) →
       3 ≤ ([2, 1, 0] : List Nat).length →
       ({ lru_list := [2, 1, 0], max_size := 3 : LRUReplacer }).Unpin 5
         = { lru_list := [2, 1, 0], max_size := 3 })
  ∧ ((({ lru_list := [2, 1, 0], max_size := 3 : LRUReplacer }).Pin
        5).lru_list = ([2, 1, 0] : List Nat).erase 5)
  ∧ ((({ lru_list := [2, 1, 0], max_size := 3 : LRUReplacer }).Pin 5).Pin 5
       = ({ lru_list := [2, 1, 0], max_size := 3 : LRUReplacer }).Pin 5) :=
  C9_lru_replacer_ops { lru_list := [2, 1, 0], max_size := 3 } 5 (by decide)

/-! ## Buffer pool manager (src/buffer/buffer_pool_manager_instance.cpp)

State: the `pages_` array (indexed by frame id), the page table
(page id → frame id, an association list here), the free list, the LRU
replacer, and the allocation counter.  Disk-manager calls
(`WritePage`, `ReadPage`) and `DeallocatePage` are recorded as an
ordered event trace; `WritePage` also updates a disk image modelled as
a function from page id to page bytes (bytes abstracted as one `Nat`). -/

def INVALID_PAGE_ID : Int := -1

structure Page where
  page_id : Int
  pin_count : Int
  is_dirty : Bool
  data : Nat
deriving Repr, DecidableEq

/-- A default-constructed `Page` (also the result of resetting one). -/
def emptyPage : Page :=
  { page_id := INVALID_PAGE_ID, pin_count := 0, is_dirty := false, data := 0 }

inductive DiskEvent where
  | write (pid : Int) (data : Nat)
  | read (pid : Int)
  | dealloc (pid : Int)
deriving Repr, DecidableEq

/-- `page_table_.find`: first binding of `pid` in the association list. -/
def ptLookup : List (Int × Nat) → Int → Option Nat
  | [], _ => none
  | (k, v) :: rest, pid => if k = pid then some v else ptLookup rest pid

/-- `page_table_.erase`: drop the binding of `pid`. -/
def ptErase : List (Int × Nat) → Int → List (Int × Nat)
  | [], _ => []
  | (k, v) :: rest, pid => if k = pid then rest else (k, v) :: ptErase rest pid

/-- `page_table_[pid] = f`: overwrite the binding or append a new one. -/
def ptInsert : List (Int × Nat) → Int → Nat → List (Int × Nat)
  | [], pid, f => [(pid, f)]
  | (k, v) :: rest, pid, f =>
    if k = pid then (k, f) :: rest else (k, v) :: ptInsert rest pid f

/-- `DiskManager::WritePage` effect on the disk image. -/
def diskWrite (disk : Int → Nat) (pid : Int) (d : Nat) : Int → Nat :=
  fun q => if q = pid then d else disk q

structure BPM where
  pool_size : Nat
  pages : List Page
  page_table : List (Int × Nat)
  free_list : List Nat
  replacer : LRUReplacer
  next_page_id : Int
  num_instances : Int
  disk : Int → Nat

/-- `BufferPoolManagerInstance::FlushPgImp`: fail on `INVALID_PAGE_ID` or
a non-resident page, else write the frame's bytes and clear its dirty
bit. -/
def FlushPgImp (s : BPM) (pid : Int) : Bool × BPM × List DiskEvent :=
  if pid = INVALID_PAGE_ID then (false, s, [])
  else
    match ptLookup s.page_table pid with
    | none => (false, s, [])
    | some f =>
      let page := s.pages.getD f emptyPage
      (true,
       { s with disk := diskWrite s.disk pid page.data,
                pages := s.pages.set f { page with is_dirty := false } },
       [DiskEvent.write pid page.data])

/-- Loop body of `FlushAllPgsImp`: walk the page table, writing every
dirty resident page; the pages themselves are not touched. -/
def flushAllAux (pages : List Page) (entries : List (Int × Nat))
    (disk : Int → Nat) : (Int → Nat) × List DiskEvent :=
  match entries with
  | [] => (disk, [])
  | (pid, f) :: rest =>
    let page := pages.getD f emptyPage
    if page.is_dirty then
      let r := flushAllAux pages rest (diskWrite disk pid page.data)
      (r.1, DiskEvent.write pid page.data :: r.2)
    else flushAllAux pages rest disk

/-- `BufferPoolManagerInstance::FlushAllPgsImp`. -/
def FlushAllPgsImp (s : BPM) : BPM × List DiskEvent :=
  let r := flushAllAux s.pages s.page_table s.disk
  ({ s with disk := r.1 }, r.2)

/-- `BufferPoolManagerInstance::NewPgImp`: victim frame from the free
list first, else from the replacer (writing the old page back if
dirty); allocate a fresh page id (pre-increment counter), reset the
frame, install the mapping, pin. Returns `(page_id, frame)`. -/
def NewPgImp (s : BPM) : Option (Int × Nat) × BPM × List DiskEvent :=
  let finish : BPM → Nat → List DiskEvent →
      Option (Int × Nat) × BPM × List DiskEvent :=
    fun s f evs =>
      let new_page_id := s.next_page_id
      let s := { s with next_page_id := s.next_page_id + s.num_instances }
      let s := { s with
        pages := s.pages.set f
          { page_id := new_page_id, pin_count := 1, is_dirty := false,
            data := 0 },
        page_table := ptInsert s.page_table new_page_id f,
        replacer := s.replacer.Pin f }
      (some (new_page_id, f), s, evs)
  match s.free_list with
  | f :: rest => finish { s with free_list := rest } f []
  | [] =>
    match s.replacer.Victim with
    | (some f, repl) =>
      let page := s.pages.getD f emptyPage
      let s := { s with replacer := repl }
      let r :=
        if page.is_dirty then
          ({ s with disk := diskWrite s.disk page.page_id page.data },
           [DiskEvent.write page.page_id page.data])
        else (s, ([] : List DiskEvent))
      finish { r.1 with page_table := ptErase r.1.page_table page.page_id }
        f r.2
    | (none, _) => (none, s, [])

/-- `BufferPoolManagerInstance::FetchPgImp`: if resident, bump the pin
count and pin in the replacer; else take a victim frame as in `NewPgImp`
(writing the old page back if dirty), then read the page from disk into
the frame. Returns the frame id standing for the `Page*`. -/
def FetchPgImp (s : BPM) (pid : Int) : Option Nat × BPM × List DiskEvent :=
  match ptLookup s.page_table pid with
  | some f =>
    let page := s.pages.getD f emptyPage
    (some f,
     { s with
        pages := s.pages.set f { page with pin_count := page.pin_count + 1 },
        replacer := s.replacer.Pin f },
     [])
  | none =>
    let finish : BPM → Nat → List DiskEvent →
        Option Nat × BPM × List DiskEvent :=
      fun s f evs =>
        let s := { s with
          pages := s.pages.set f
            { page_id := pid, pin_count := 1, is_dirty := false,
              data := s.disk pid },
          page_table := ptInsert s.page_table pid f,
          replacer := s.replacer.Pin f }
        (some f, s, evs ++ [DiskEvent.read pid])
    match s.free_list with
    | f :: rest => finish { s with free_list := rest } f []
    | [] =>
      match s.replacer.Victim with
      | (some f, repl) =>
        let page := s.pages.getD f emptyPage
        let s := { s with replacer := repl }
        let r :=
          if page.is_dirty then
            ({ s with disk := diskWrite s.disk page.page_id page.data },
             [DiskEvent.write page.page_id page.data])
          else (s, ([] : List DiskEvent))
        finish { r.1 with page_table := ptErase r.1.page_table page.page_id }
          f r.2
      | (none, _) => (none, s, [])

/-- `BufferPoolManagerInstance::DeletePgImp`: `DeallocatePage` is called
unconditionally at entry; a resident pinned page then fails; a resident
unpinned page is flushed if dirty, evicted, reset and its frame returned
to the free list; a non-resident page succeeds with no state change. -/
def DeletePgImp (s : BPM) (pid : Int) : Bool × BPM × List DiskEvent :=
  let evs0 := [DiskEvent.dealloc pid]
  match ptLookup s.page_table pid with
  | none => (true, s, evs0)
  | some f =>
    let page := s.pages.getD f emptyPage
    if 0 < page.pin_count then (false, s, evs0)
    else
      let r :=
        if page.is_dirty then
          (diskWrite s.disk page.page_id page.data,
           [DiskEvent.write page.page_id page.data])
        else (s.disk, ([] : List DiskEvent))
      (true,
       { s with
          replacer := s.replacer.Pin f,
          page_table := ptErase s.page_table page.page_id,
          pages := s.pages.set f
            { page_id := INVALID_PAGE_ID, pin_count := 0, is_dirty := false,
              data := 0 },
          free_list := s.free_list ++ [f],
          disk := r.1 },
       evs0 ++ r.2)

/-- `BufferPoolManagerInstance::UnpinPgImp`: fail when not resident or
when the pin count is already non-positive; else decrement the pin
count, or the dirty flag in (`if (is_dirty) page->is_dirty_ = true`),
and hand the frame to the replacer when the pin count reaches zero. -/
def UnpinPgImp (s : BPM) (pid : Int) (is_dirty : Bool) : Bool × BPM :=
  match ptLookup s.page_table pid with
  | none => (false, s)
  | some f =>
    let page := s.pages.getD f emptyPage
    if page.pin_count ≤ 0 then (false, s)
    else
      let page' := { page with
        pin_count := page.pin_count - 1,
        is_dirty := if is_dirty then true else page.is_dirty }
      let repl := if page'.pin_count ≤ 0 then s.replacer.Unpin f
                  else s.replacer
      (true, { s with pages := s.pages.set f page', replacer := repl })

/-! ### Helper lemmas for the buffer pool model -/

lemma getD_set_self {l : List Page} {i : Nat} {a : Page} (h : i < l.length) :
    (l.set i a).getD i emptyPage = a := by
  simp [List.getD_eq_getElem?_getD, List.getElem?_set_self h]

lemma ptLookup_eq_none_of_not_mem {l : List (Int × Nat)} {pid : Int}
    (h : pid ∉ l.map Prod.fst) : ptLookup l pid = none := by
  induction l with
  | nil => rfl
  | cons e rest ih =>
    obtain ⟨k, v⟩ := e
    simp only [List.map_cons, List.mem_cons] at h
    push_neg at h
    rw [ptLookup, if_neg (fun he => h.1 he.symm)]
    exact ih h.2

lemma ptLookup_erase_self {l : List (Int × Nat)} {pid : Int}
    (hnd : (l.map Prod.fst).Nodup) :
    ptLookup (ptErase l pid) pid = none := by
  induction l with
  | nil => rfl
  | cons e rest ih =>
    obtain ⟨k, v⟩ := e
    simp only [List.map_cons, List.nodup_cons] at hnd
    by_cases hk : k = pid
    · subst hk
      rw [ptErase, if_pos rfl]
      exact ptLookup_eq_none_of_not_mem hnd.1
    · rw [ptErase, if_neg hk, ptLookup, if_neg hk]
      exact ih hnd.2

lemma mem_ptLookup {l : List (Int × Nat)} {pid : Int} {f : Nat}
    (hnd : (l.map Prod.fst).Nodup) (h : (pid, f) ∈ l) :
    ptLookup l pid = some f := by
  induction l with
  | nil => simp at h
  | cons e rest ih =>
    obtain ⟨k, v⟩ := e
    simp only [List.map_cons, List.nodup_cons] at hnd
    rcases List.mem_cons.mp h with h1 | h1
    · cases h1
      rw [ptLookup, if_pos rfl]
    · have hk : k ≠ pid := by
        intro he
        subst he
        exact hnd.1 (List.mem_map.mpr ⟨(k, f), h1, rfl⟩)
      rw [ptLookup, if_neg hk]
      exact ih hnd.2 h1

lemma ptLookup_mem {l : List (Int × Nat)} {pid : Int} {f : Nat}
    (h : ptLookup l pid = some f) : (pid, f) ∈ l := by
  induction l with
  | nil => exact absurd h (by simp [ptLookup])
  | cons e rest ih =>
    obtain ⟨k, v⟩ := e
    rw [ptLookup] at h
    by_cases hk : k = pid
    · rw [if_pos hk] at h
      subst hk
      cases Option.some.inj h
      exact List.mem_cons_self _ _
    · rw [if_neg hk] at h
      exact List.mem_cons_of_mem _ (ih h)

lemma flushAllAux_mem_write (pages : List Page) (entries : List (Int × Nat))
    (disk : Int → Nat) (pid : Int) (data : Nat) :
    DiskEvent.write pid data ∈ (flushAllAux pages entries disk).2 ↔
    ∃ f, (pid, f) ∈ entries ∧ (pages.getD f emptyPage).is_dirty = true
       ∧ data = (pages.getD f emptyPage).data := by
  induction entries generalizing disk with
  | nil => simp [flushAllAux]
  | cons e rest ih =>
    obtain ⟨p, g⟩ := e
    by_cases hd : (pages.getD g emptyPage).is_dirty
    · simp only [flushAllAux]
      rw [if_pos hd]
      constructor
      · intro hmem
        rcases List.mem_cons.mp hmem with h1 | h1
        · injection h1 with h1a h1b
          exact ⟨g, by rw [h1a]; exact List.mem_cons_self _ _, hd, h1b⟩
        · obtain ⟨f, hf, hdf, hdata⟩ := (ih _).mp h1
          exact ⟨f, List.mem_cons_of_mem _ hf, hdf, hdata⟩
      · rintro ⟨f, hf, hdf, hdata⟩
        rcases List.mem_cons.mp hf with h1 | h1
        · cases h1
          rw [hdata]
          exact List.mem_cons_self _ _
        · exact List.mem_cons.mpr (Or.inr ((ih _).mpr ⟨f, h1, hdf, hdata⟩))
    · simp only [flushAllAux]
      rw [if_neg hd]
      rw [ih]
      constructor
      · rintro ⟨f, hf, hdf, hdata⟩
        exact ⟨f, List.mem_cons_of_mem _ hf, hdf, hdata⟩
      · rintro ⟨f, hf, hdf, hdata⟩
        rcases List.mem_cons.mp hf with h1 | h1
        · cases h1
          exact absurd hdf hd
        · exact ⟨f, h1, hdf, hdata⟩

/-- C7: `UnpinPage(p, d)` fails exactly when `p` is not resident or its
pin count is already at (or below) zero; otherwise it decrements the pin
count, ors `d` into the dirty flag (a set dirty flag is never cleared by
`d = false`), hands the frame to the replacer exactly when the pin count
reaches zero, and returns true. -/
theorem C7_unpin_page (s : BPM) (pid : Int) (d : Bool) :
    (ptLookup s.page_table pid = none → UnpinPgImp s pid d = (false, s))
  ∧ (∀ f, ptLookup s.page_table pid = some f →
       (s.pages.getD f emptyPage).pin_count ≤ 0 →
       UnpinPgImp s pid d = (false, s))
  ∧ (∀ f, ptLookup s.page_table pid = some f → f < s.pages.length →
       0 < (s.pages.getD f emptyPage).pin_count →
       (UnpinPgImp s pid d).1 = true
       ∧ ((UnpinPgImp s pid d).2.pages.getD f emptyPage).pin_count
           = (s.pages.getD f emptyPage).pin_count - 1
       ∧ ((UnpinPgImp s pid d).2.pages.getD f emptyPage).is_dirty
           = ((s.pages.getD f emptyPage).is_dirty || d)
       ∧ ((s.pages.getD f emptyPage).is_dirty = true →
            ((UnpinPgImp s pid d).2.pages.getD f emptyPage).is_dirty = true)
       ∧ (1 < (s.pages.getD f emptyPage).pin_count →
            (UnpinPgImp s pid d).2.replacer = s.replacer)
       ∧ ((s.pages.getD f emptyPage).pin_count = 1 →
            f ∉ s.replacer.lru_list →
            s.replacer.lru_list.length < s.replacer.max_size →
            f ∈ (UnpinPgImp s pid d).2.replacer.lru_list)) := by
  refine ⟨?_, ?_, ?_⟩
  · intro h
    simp [UnpinPgImp, h]
  · intro f hf hz
    rw [List.getD_eq_getElem?_getD] at hz
    simp [UnpinPgImp, hf, hz]
  · intro f hf hlen hpos
    have hnz : ¬ (s.pages.getD f emptyPage).pin_count ≤ 0 := by omega
    rw [List.getD_eq_getElem?_getD] at hnz
    simp only [UnpinPgImp, hf, if_neg hnz, List.getD_eq_getElem?_getD]
    refine ⟨trivial, ?_, ?_, ?_, ?_, ?_⟩
    · simp [List.getElem?_set_self hlen]
    · simp only [List.getElem?_set_self hlen, Option.getD_some]
      cases d <;> simp
    · intro hdirty
      simp only [List.getElem?_set_self hlen, Option.getD_some]
      cases d <;> simp [hdirty]
    · intro h1
      have h2 : ¬ (s.pages[f]?.getD emptyPage).pin_count - 1 ≤ 0 := by omega
      simp [h2]
    · intro h1 hmem hcap
      have h2 : (s.pages[f]?.getD emptyPage).pin_count - 1 ≤ 0 := by omega
      rw [if_pos h2]
      simp [LRUReplacer.Unpin, hmem, Nat.not_le.mpr hcap]

/-- A small concrete pool used by witnesses: page 0 pinned in frame 0,
page 1 unpinned and dirty in frame 1 (frame 1 evictable). -/
def bpmSample : BPM :=
  { pool_size := 2,
    pages := [{ page_id := 0, pin_count := 1, is_dirty := false, data := 5 },
              { page_id := 1, pin_count := 0, is_dirty := true, data := 7 }],
    page_table := [(0, 0), (1, 1)],
    free_list := [],
    replacer := { lru_list := [1], max_size := 2 },
    next_page_id := 2,
    num_instances := 1,
    disk := fun _ => 0 }

/-- Witness for C7 on `bpmSample`: page 0 is resident in frame 0 with
pin count 1; unpinning it succeeds, decrements the pin count, and
places frame 0 in the replacer. -/
theorem C7_unpin_page_witness :
    (UnpinPgImp bpmSample 0 true).1 = true
    ∧ ((UnpinPgImp bpmSample 0 true).2.pages.getD 0 emptyPage).pin_count
        = (bpmSample.pages.getD 0 emptyPage).pin_count - 1
    ∧ (0 : Nat) ∈ (UnpinPgImp bpmSample 0 true).2.replacer.lru_list := by
  have h := (C7_unpin_page bpmSample 0 true).2.2 0 rfl (by decide) (by decide)
  exact ⟨h.1, h.2.1,
    h.2.2.2.2.2 (by decide) (by decide) (by decide)⟩

/-- C10: `FlushAllPages` writes to disk exactly the resident pages whose
dirty flag is set, does not clear any dirty flag (so a page it flushes
is still dirty afterwards and will be written again on eviction), and
leaves the page table, pin counts, free list and replacer unchanged;
`FlushPage`, by contrast, clears the flushed page's dirty flag. -/
theorem C10_flush_all_pages (s : BPM)
    (hnd : (s.page_table.map Prod.fst).Nodup) :
    ((FlushAllPgsImp s).1.pages = s.pages
     ∧ (FlushAllPgsImp s).1.page_table = s.page_table
     ∧ (FlushAllPgsImp s).1.free_list = s.free_list
     ∧ (FlushAllPgsImp s).1.replacer = s.replacer
     ∧ (FlushAllPgsImp s).1.next_page_id = s.next_page_id)
  ∧ (∀ pid data, DiskEvent.write pid data ∈ (FlushAllPgsImp s).2 ↔
       ∃ f, ptLookup s.page_table pid = some f
         ∧ (s.pages.getD f emptyPage).is_dirty = true
         ∧ data = (s.pages.getD f emptyPage).data)
  ∧ (∀ pid f, ptLookup s.page_table pid = some f →
       (s.pages.getD f emptyPage).is_dirty = true →
       ((FlushAllPgsImp s).1.pages.getD f emptyPage).is_dirty = true)
  ∧ (∀ pid f, pid ≠ INVALID_PAGE_ID → ptLookup s.page_table pid = some f →
       f < s.pages.length →
       ((FlushPgImp s pid).2.1.pages.getD f emptyPage).is_dirty = false) := by
  refine ⟨⟨rfl, rfl, rfl, rfl, rfl⟩, ?_, ?_, ?_⟩
  · intro pid data
    rw [show (FlushAllPgsImp s).2
        = (flushAllAux s.pages s.page_table s.disk).2 from rfl]
    rw [flushAllAux_mem_write]
    constructor
    · rintro ⟨f, hf, hdf, hdata⟩
      exact ⟨f, mem_ptLookup hnd hf, hdf, hdata⟩
    · rintro ⟨f, hf, hdf, hdata⟩
      exact ⟨f, ptLookup_mem hf, hdf, hdata⟩
  · intro pid f hf hd
    exact hd
  · intro pid f hinv hf hlen
    simp only [FlushPgImp, if_neg hinv, hf]
    simp [List.getElem?_set_self hlen]

/-- Witness for C10 on `bpmSample`: the single dirty resident page
(page 1, bytes 7) is written, and the in-memory pages are untouched. -/
theorem C10_flush_all_pages_witness :
    DiskEvent.write 1 7 ∈ (FlushAllPgsImp bpmSample).2
    ∧ (FlushAllPgsImp bpmSample).1.pages = bpmSample.pages := by
  have h := C10_flush_all_pages bpmSample (by decide)
  exact ⟨(h.2.1 1 7).mpr ⟨1, rfl, rfl, rfl⟩, h.1.1⟩

/-- C8: when `NewPage` or `FetchPage` reuses a victim frame obtained
from the replacer and the page occupying it is dirty, the old page's
bytes are written to disk under the old page id (and only then is the
frame reassigned, as witnessed by the new page id in the final state);
frames taken from the free list produce no write-back. -/
theorem C8_dirty_victim_writeback (s : BPM) (pid : Int) (f : Nat)
    (rest : List Nat) (repl : LRUReplacer) :
    (s.free_list = f :: rest → f < s.pages.length →
       (NewPgImp s).2.2 = []
       ∧ ((NewPgImp s).2.1.pages.getD f emptyPage).page_id = s.next_page_id)
  ∧ (s.free_list = [] → s.replacer.Victim = (some f, repl) →
       f < s.pages.length →
       (s.pages.getD f emptyPage).is_dirty = true →
       (NewPgImp s).2.2
         = [DiskEvent.write (s.pages.getD f emptyPage).page_id
              (s.pages.getD f emptyPage).data]
       ∧ ((NewPgImp s).2.1.pages.getD f emptyPage).page_id = s.next_page_id)
  ∧ (ptLookup s.page_table pid = none → s.free_list = f :: rest →
       f < s.pages.length →
       (FetchPgImp s pid).2.2 = [DiskEvent.read pid]
       ∧ ((FetchPgImp s pid).2.1.pages.getD f emptyPage).page_id = pid)
  ∧ (ptLookup s.page_table pid = none → s.free_list = [] →
       s.replacer.Victim = (some f, repl) → f < s.pages.length →
       (s.pages.getD f emptyPage).is_dirty = true →
       (FetchPgImp s pid).2.2
         = [DiskEvent.write (s.pages.getD f emptyPage).page_id
              (s.pages.getD f emptyPage).data, DiskEvent.read pid]
       ∧ ((FetchPgImp s pid).2.1.pages.getD f emptyPage).page_id = pid) := by
  refine ⟨?_, ?_, ?_, ?_⟩
  · intro hfl hlen
    simp only [NewPgImp, hfl]
    refine ⟨by simp, by simp [List.getElem?_set_self hlen]⟩
  · intro hfl hv hlen hd
    rw [List.getD_eq_getElem?_getD] at hd
    simp only [NewPgImp, hfl, hv, List.getD_eq_getElem?_getD, hd, if_true]
    refine ⟨by simp, by simp [List.getElem?_set_self hlen]⟩
  · intro hpt hfl hlen
    simp only [FetchPgImp, hpt, hfl]
    refine ⟨by simp, by simp [List.getElem?_set_self hlen]⟩
  · intro hpt hfl hv hlen hd
    rw [List.getD_eq_getElem?_getD] at hd
    simp only [FetchPgImp, hpt, hfl, hv, List.getD_eq_getElem?_getD, hd,
      if_true]
    refine ⟨by simp, by simp [List.getElem?_set_self hlen]⟩

/-- Witness for C8 on `bpmSample` (free list empty, frame 1 evictable
and dirty): `NewPage` first writes page 1's bytes back under page id 1,
then installs the freshly allocated page id 2 in frame 1. -/
theorem C8_dirty_victim_writeback_witness :
    (NewPgImp bpmSample).2.2 = [DiskEvent.write 1 7]
    ∧ ((NewPgImp bpmSample).2.1.pages.getD 1 emptyPage).page_id = 2 := by
  have h := (C8_dirty_victim_writeback bpmSample 0 1 []
    { lru_list := [], max_size := 2 }).2.1 rfl rfl (by decide) rfl
  exact ⟨h.1, h.2⟩

/-- C3 (amended): `DeletePage` invokes the disk-side `DeallocatePage`
unconditionally at entry, on every path.  A resident pinned page then
yields false with the buffer-pool state unchanged; a resident unpinned
page is flushed if dirty, removed from the page table, reset to
`INVALID_PAGE_ID` with zeroed memory, removed from the replacer, its
frame appended to the free list, and true is returned; a non-resident
page yields true with no state change. -/
theorem C3_delete_page (s : BPM) (pid : Int) (f : Nat)
    (hnd : (s.page_table.map Prod.fst).Nodup)
    (hrep : s.replacer.lru_list.Nodup) :
    (ptLookup s.page_table pid = none →
       DeletePgImp s pid = (true, s, [DiskEvent.dealloc pid]))
  ∧ (ptLookup s.page_table pid = some f →
       0 < (s.pages.getD f emptyPage).pin_count →
       DeletePgImp s pid = (false, s, [DiskEvent.dealloc pid]))
  ∧ (ptLookup s.page_table pid = some f → f < s.pages.length →
       (s.pages.getD f emptyPage).pin_count ≤ 0 →
       (s.pages.getD f emptyPage).page_id = pid →
       (DeletePgImp s pid).1 = true
       ∧ (DeletePgImp s pid).2.2
           = DiskEvent.dealloc pid ::
             (if (s.pages.getD f emptyPage).is_dirty then
                [DiskEvent.write pid (s.pages.getD f emptyPage).data]
              else [])
       ∧ ptLookup (DeletePgImp s pid).2.1.page_table pid = none
       ∧ (DeletePgImp s pid).2.1.pages.getD f emptyPage = emptyPage
       ∧ (DeletePgImp s pid).2.1.free_list = s.free_list ++ [f]
       ∧ f ∉ (DeletePgImp s pid).2.1.replacer.lru_list) := by
  refine ⟨?_, ?_, ?_⟩
  · intro h
    simp [DeletePgImp, h]
  · intro hf hpin
    rw [List.getD_eq_getElem?_getD] at hpin
    simp [DeletePgImp, hf, hpin]
  · intro hf hlen hpin hpid
    rw [List.getD_eq_getElem?_getD] at hpin hpid
    have hnp : ¬ 0 < (s.pages[f]?.getD emptyPage).pin_count := by omega
    simp only [DeletePgImp, hf, if_neg hnp, List.getD_eq_getElem?_getD]
    refine ⟨trivial, ?_, ?_, ?_, trivial, ?_⟩
    · by_cases hd : (s.pages[f]?.getD emptyPage).is_dirty
      · rw [if_pos hd, if_pos hd, hpid]
        rfl
      · rw [if_neg hd, if_neg hd]
        rfl
    · rw [hpid]
      exact ptLookup_erase_self hnd
    · simp [List.getElem?_set_self hlen, emptyPage]
    · simp only [LRUReplacer.Pin]
      by_cases hm : f ∈ s.replacer.lru_list
      · rw [if_pos hm]
        intro hc
        exact absurd ((List.Nodup.mem_erase_iff hrep).mp hc).1 (by simp)
      · rw [if_neg hm]
        exact hm

/-- C3 counterexample to the claim as stated: on `bpmSample`, page 0 is
resident and pinned, so `DeletePage(0)` returns false — yet the
disk-side `DeallocatePage` has already been invoked. -/
theorem C3_dealloc_called_when_pinned :
    (DeletePgImp bpmSample 0).1 = false
    ∧ DiskEvent.dealloc 0 ∈ (DeletePgImp bpmSample 0).2.2 := by decide

/-- Witness for C3 (amended) on `bpmSample`: deleting the unpinned
dirty page 1 flushes it, resets frame 1, and appends it to the free
list. -/
theorem C3_delete_page_witness :
    (DeletePgImp bpmSample 1).1 = true
    ∧ (DeletePgImp bpmSample 1).2.2
        = [DiskEvent.dealloc 1, DiskEvent.write 1 7]
    ∧ ptLookup (DeletePgImp bpmSample 1).2.1.page_table 1 = none
    ∧ (DeletePgImp bpmSample 1).2.1.free_list = [1]
    ∧ (1 : Nat) ∉ (DeletePgImp bpmSample 1).2.1.replacer.lru_list := by
  have h := (C3_delete_page bpmSample 1 1 (by decide) (by decide)).2.2
    rfl (by decide) (by decide) rfl
  refine ⟨h.1, ?_, h.2.2.1, h.2.2.2.2.1, h.2.2.2.2.2⟩
  have h2 := h.2.1
  simpa using h2

/-! ## Lock manager (src/concurrency/lock_manager.cpp)

Transactions are identified by `txn_id : Nat` (smaller = older); their
states live in a map `Nat → TxnState` standing for
`TransactionManager::GetTransaction(..)->GetState()`.  A lock request
queue is a list of requests, front = oldest entry.  `NeedWait` returns
`(need_wait, updated states, notified)` where `notified` records
whether `cv_.notify_all()` was called after wounding. -/

inductive LockMode where
  | shared
  | exclusive
deriving Repr, DecidableEq

inductive TxnState where
  | growing
  | shrinking
  | committed
  | aborted
deriving Repr, DecidableEq

structure LockRequest where
  txn_id : Nat
  lock_mode : LockMode
  granted : Bool
deriving Repr, DecidableEq

/-- The predecessor loop of `LockManager::NeedWait` (lines 210–241):
walk the queue from the front up to (not including) the first entry
carrying the requester's own txn id; wound younger conflicting
predecessors (situation1: shared requester vs exclusive predecessor;
situation2: exclusive requester vs anyone), and set `need_wait` for
older predecessors per the same asymmetry. -/
def woundLoop (txnId : Nat) (selfMode : LockMode) :
    List LockRequest → (Nat → TxnState) → Bool → Bool →
    Bool × (Nat → TxnState) × Bool
  | [], st, need_wait, has_aborted => (need_wait, st, has_aborted)
  | r :: rest, st, need_wait, has_aborted =>
    if r.txn_id = txnId then (need_wait, st, has_aborted)
    else if txnId < r.txn_id then
      if (selfMode = LockMode.shared ∧ r.lock_mode = LockMode.exclusive)
          ∨ selfMode = LockMode.exclusive then
        if st r.txn_id ≠ TxnState.aborted then
          woundLoop txnId selfMode rest
            (fun t => if t = r.txn_id then TxnState.aborted else st t)
            need_wait true
        else woundLoop txnId selfMode rest st need_wait has_aborted
      else woundLoop txnId selfMode rest st need_wait has_aborted
    else
      let need_wait := if selfMode = LockMode.exclusive then true
                       else need_wait
      let need_wait := if r.lock_mode = LockMode.exclusive then true
                       else need_wait
      woundLoop txnId selfMode rest st need_wait has_aborted

/-- `LockManager::NeedWait` (lines 191–242): read `self` from the back
of the queue, apply the head-of-queue fast path, then run the
predecessor loop. -/
def NeedWait (txnId : Nat) (q : List LockRequest) (st : Nat → TxnState) :
    Bool × (Nat → TxnState) × Bool :=
  match q with
  | [] => (false, st, false)
  | first :: qrest =>
    let self := (first :: qrest).getLast (List.cons_ne_nil first qrest)
    if self.lock_mode = LockMode.shared then
      if first.txn_id = txnId ∨ first.lock_mode = LockMode.shared then
        (false, st, false)
      else woundLoop txnId self.lock_mode (first :: qrest) st false false
    else
      if first.txn_id = txnId then (false, st, false)
      else woundLoop txnId self.lock_mode (first :: qrest) st false false

/-- The entries preceding the requester's own entry (the range the
`NeedWait` loop visits). -/
def predsOf (txnId : Nat) (q : List LockRequest) : List LockRequest :=
  q.takeWhile (fun r => !decide (r.txn_id = txnId))

/-- An older predecessor that forces the requester to wait. -/
def olderConflict (txnId : Nat) (selfMode : LockMode)
    (r : LockRequest) : Bool :=
  decide (r.txn_id < txnId) &&
    (decide (selfMode = LockMode.exclusive)
     || decide (r.lock_mode = LockMode.exclusive))

/-- A younger predecessor that the requester wounds. -/
def woundsB (txnId : Nat) (selfMode : LockMode) (r : LockRequest) : Bool :=
  decide (txnId < r.txn_id) &&
    (decide (selfMode = LockMode.exclusive)
     || decide (r.lock_mode = LockMode.exclusive))

lemma woundLoop_spec (txnId : Nat) (selfMode : LockMode)
    (L : List LockRequest) :
    ∀ (st : Nat → TxnState) (nw ha : Bool),
    (woundLoop txnId selfMode L st nw ha).1
      = (nw || (predsOf txnId L).any (olderConflict txnId selfMode))
    ∧ (∀ t, (woundLoop txnId selfMode L st nw ha).2.1 t
        = if (predsOf txnId L).any
              (fun r => decide (r.txn_id = t) && woundsB txnId selfMode r)
          then TxnState.aborted else st t)
    ∧ (woundLoop txnId selfMode L st nw ha).2.2
      = (ha || (predsOf txnId L).any
          (fun r => woundsB txnId selfMode r
            && decide (st r.txn_id ≠ TxnState.aborted))) := by
  induction L with
  | nil => intro st nw ha; simp [woundLoop, predsOf]
  | cons r rest ih =>
    intro st nw ha
    by_cases h1 : r.txn_id = txnId
    · rw [show woundLoop txnId selfMode (r :: rest) st nw ha
          = (nw, st, ha) by rw [woundLoop]; rw [if_pos h1]]
      simp [predsOf, h1]
    · have hpreds : predsOf txnId (r :: rest)
          = r :: predsOf txnId rest := by
        simp [predsOf, List.takeWhile_cons, h1]
      by_cases h2 : txnId < r.txn_id
      · -- younger predecessor: maybe wound
        have hoc : olderConflict txnId selfMode r = false := by
          simp [olderConflict, Nat.not_lt.mpr (Nat.le_of_lt h2)]
        by_cases h3 : (selfMode = LockMode.shared
            ∧ r.lock_mode = LockMode.exclusive)
            ∨ selfMode = LockMode.exclusive
        · have hwb : woundsB txnId selfMode r = true := by
            rcases h3 with ⟨h3a, h3b⟩ | h3a
            · simp [woundsB, h2, h3b]
            · simp [woundsB, h2, h3a]
          by_cases h4 : st r.txn_id ≠ TxnState.aborted
          · rw [show woundLoop txnId selfMode (r :: rest) st nw ha
                = woundLoop txnId selfMode rest
                    (fun t => if t = r.txn_id then TxnState.aborted
                     else st t) nw true by
              rw [woundLoop]
              rw [if_neg h1, if_pos h2, if_pos h3, if_pos h4]]
            obtain ⟨ihA, ihB, ihC⟩ := ih
              (fun t => if t = r.txn_id then TxnState.aborted else st t)
              nw true
            refine ⟨?_, ?_, ?_⟩
            · rw [ihA, hpreds]
              simp [hoc]
            · intro t
              rw [ihB t, hpreds]
              by_cases h5 : t = r.txn_id
              · subst h5
                simp [hwb]
              · have hne : r.txn_id ≠ t := fun h => h5 h.symm
                simp [hne, h5]
            · rw [ihC, hpreds]
              simp [hwb, h4]
          · push_neg at h4
            rw [show woundLoop txnId selfMode (r :: rest) st nw ha
                = woundLoop txnId selfMode rest st nw ha by
              rw [woundLoop]
              rw [if_neg h1, if_pos h2, if_pos h3,
                if_neg (by simpa using h4)]]
            obtain ⟨ihA, ihB, ihC⟩ := ih st nw ha
            refine ⟨?_, ?_, ?_⟩
            · rw [ihA, hpreds]
              simp [hoc]
            · intro t
              rw [ihB t, hpreds]
              by_cases h5 : t = r.txn_id
              · subst h5
                simp [hwb, h4]
              · have hne : r.txn_id ≠ t := fun h => h5 h.symm
                simp [hne]
            · rw [ihC, hpreds]
              simp [hwb, h4]
        · have hwb : woundsB txnId selfMode r = false := by
            cases hm : selfMode
            · cases hrm : r.lock_mode
              · simp [woundsB, hm, hrm]
              · exact absurd (Or.inl ⟨hm, hrm⟩) h3
            · exact absurd (Or.inr hm) h3
          rw [show woundLoop txnId selfMode (r :: rest) st nw ha
              = woundLoop txnId selfMode rest st nw ha by
            rw [woundLoop]
            rw [if_neg h1, if_pos h2, if_neg h3]]
          obtain ⟨ihA, ihB, ihC⟩ := ih st nw ha
          refine ⟨?_, ?_, ?_⟩
          · rw [ihA, hpreds]
            simp [hoc]
          · intro t
            rw [ihB t, hpreds]
            simp [hwb]
          · rw [ihC, hpreds]
            simp [hwb]
      · -- older predecessor: accumulate need_wait
        have h3 : r.txn_id < txnId := by omega
        have hwb : woundsB txnId selfMode r = false := by
          simp [woundsB, h2]
        rw [show woundLoop txnId selfMode (r :: rest) st nw ha
            = woundLoop txnId selfMode rest st
                (if r.lock_mode = LockMode.exclusive then true
                 else if selfMode = LockMode.exclusive then true else nw)
                ha by
          rw [woundLoop]
          rw [if_neg h1, if_neg h2]]
        obtain ⟨ihA, ihB, ihC⟩ := ih st
          (if r.lock_mode = LockMode.exclusive then true
           else if selfMode = LockMode.exclusive then true else nw) ha
        refine ⟨?_, ?_, ?_⟩
        · rw [ihA, hpreds]
          simp only [List.any_cons]
          cases hm : selfMode <;> cases hrm : r.lock_mode <;>
            simp [olderConflict, hm, hrm, h3]
        · intro t
          rw [ihB t, hpreds]
          simp [hwb]
        · rw [ihC, hpreds]
          simp [hwb]

/-- C2 (amended): `NeedWait` implements asymmetric wound-wait *except
on the head-of-queue fast path*: when the requester is SHARED and the
queue head is its own entry or a SHARED request, or the requester is
EXCLUSIVE and the head is its own entry, `NeedWait` returns false
immediately, wounding no one and notifying nobody.  Otherwise, over the
predecessors up to the requester's entry: a SHARED requester wounds
exactly the younger EXCLUSIVE predecessors and waits exactly when some
older predecessor is EXCLUSIVE; an EXCLUSIVE requester wounds every
younger predecessor and waits when any older predecessor precedes it;
and the queue's condition variable is notified exactly when some
not-yet-aborted transaction was wounded. -/
theorem C2_need_wait_wound_wait (txnId : Nat) (st : Nat → TxnState)
    (first self : LockRequest) (qrest : List LockRequest)
    (hself : (first :: qrest).getLast? = some self) :
    (self.lock_mode = LockMode.shared →
       (first.txn_id = txnId ∨ first.lock_mode = LockMode.shared) →
       NeedWait txnId (first :: qrest) st = (false, st, false))
  ∧ (self.lock_mode = LockMode.exclusive → first.txn_id = txnId →
       NeedWait txnId (first :: qrest) st = (false, st, false))
  ∧ (¬((self.lock_mode = LockMode.shared
        ∧ (first.txn_id = txnId ∨ first.lock_mode = LockMode.shared))
       ∨ (self.lock_mode = LockMode.exclusive ∧ first.txn_id = txnId)) →
       (NeedWait txnId (first :: qrest) st).1
         = (predsOf txnId (first :: qrest)).any
             (olderConflict txnId self.lock_mode)
       ∧ (∀ t, (NeedWait txnId (first :: qrest) st).2.1 t
           = if (predsOf txnId (first :: qrest)).any
                 (fun r => decide (r.txn_id = t)
                   && woundsB txnId self.lock_mode r) = true
             then TxnState.aborted else st t)
       ∧ (NeedWait txnId (first :: qrest) st).2.2
           = (predsOf txnId (first :: qrest)).any
               (fun r => woundsB txnId self.lock_mode r
                 && decide (st r.txn_id ≠ TxnState.aborted))) := by
  have hgl : (first :: qrest).getLast (List.cons_ne_nil first qrest)
      = self := by
    rw [List.getLast?_eq_getLast _ (List.cons_ne_nil first qrest)] at hself
    exact Option.some.inj hself
  refine ⟨?_, ?_, ?_⟩
  · intro hm hfast
    rw [NeedWait, hgl, if_pos hm, if_pos hfast]
  · intro hm hfast
    rw [NeedWait, hgl,
      if_neg (by rw [hm]; intro hc; exact LockMode.noConfusion hc),
      if_pos hfast]
  · intro hnf
    have hspec := woundLoop_spec txnId self.lock_mode (first :: qrest)
      st false false
    cases hm : self.lock_mode
    · have hfastne : ¬(first.txn_id = txnId
          ∨ first.lock_mode = LockMode.shared) := by
        intro hc
        exact hnf (Or.inl ⟨hm, hc⟩)
      rw [NeedWait, hgl, hm, if_pos rfl, if_neg hfastne]
      rw [hm] at hspec
      obtain ⟨hA, hB, hC⟩ := hspec
      exact ⟨by rw [hA]; simp, fun t => hB t, by rw [hC]; simp⟩
    · have hfastne : ¬ first.txn_id = txnId := by
        intro hc
        exact hnf (Or.inr ⟨hm, hc⟩)
      rw [NeedWait, hgl, hm,
        if_neg (fun hc => LockMode.noConfusion hc), if_neg hfastne]
      rw [hm] at hspec
      obtain ⟨hA, hB, hC⟩ := hspec
      exact ⟨by rw [hA]; simp, fun t => hB t, by rw [hC]; simp⟩

/-- C2 counterexample to the claim as stated: shared requester 3 has an
older predecessor (txn 2) requesting EXCLUSIVE, so the claim demands
`need_wait = true`; but the queue head is a SHARED request, the fast
path fires, and `NeedWait` reports false (and wounds nobody). -/
theorem C2_fast_path_ignores_older_exclusive :
    (NeedWait 3
      [{ txn_id := 1, lock_mode := LockMode.shared, granted := true },
       { txn_id := 2, lock_mode := LockMode.exclusive, granted := false },
       { txn_id := 3, lock_mode := LockMode.shared, granted := false }]
      (fun _ => TxnState.growing)).1 = false
    ∧ (predsOf 3
        [{ txn_id := 1, lock_mode := LockMode.shared, granted := true },
         { txn_id := 2, lock_mode := LockMode.exclusive, granted := false },
         { txn_id := 3, lock_mode := LockMode.shared, granted := false }]).any
        (olderConflict 3 LockMode.shared) = true := by decide

/-- A concrete queue for the C2 witness: the head (txn 5, EXCLUSIVE)
blocks the fast path for shared requester 1. -/
def qSampleC2 : List LockRequest :=
  [{ txn_id := 5, lock_mode := LockMode.exclusive, granted := true },
   { txn_id := 2, lock_mode := LockMode.shared, granted := true },
   { txn_id := 1, lock_mode := LockMode.shared, granted := false }]

/-- Witness for C2 (amended) on `qSampleC2`: old shared requester 1
wounds the younger exclusive holder 5 (but not the younger shared
holder 2), does not wait (no *older* predecessor exists), and the
condition variable is notified. -/
theorem C2_need_wait_wound_wait_witness :
    (NeedWait 1 qSampleC2 (fun _ => TxnState.growing)).1 = false
    ∧ (NeedWait 1 qSampleC2 (fun _ => TxnState.growing)).2.1 5
        = TxnState.aborted
    ∧ (NeedWait 1 qSampleC2 (fun _ => TxnState.growing)).2.1 2
        = TxnState.growing
    ∧ (NeedWait 1 qSampleC2 (fun _ => TxnState.growing)).2.2 = true := by
  have h := (C2_need_wait_wound_wait 1 (fun _ => TxnState.growing)
    { txn_id := 5, lock_mode := LockMode.exclusive, granted := true }
    { txn_id := 1, lock_mode := LockMode.shared, granted := false }
    [{ txn_id := 2, lock_mode := LockMode.shared, granted := true },
     { txn_id := 1, lock_mode := LockMode.shared, granted := false }]
    rfl).2.2 (by decide)
  refine ⟨?_, ?_, ?_, ?_⟩
  · rw [show (NeedWait 1 qSampleC2 (fun _ => TxnState.growing)).1
        = _ from h.1]
    decide
  · rw [show (NeedWait 1 qSampleC2 (fun _ => TxnState.growing)).2.1 5
        = _ from h.2.1 5]
    decide
  · rw [show (NeedWait 1 qSampleC2 (fun _ => TxnState.growing)).2.1 2
        = _ from h.2.1 2]
    decide
  · rw [show (NeedWait 1 qSampleC2 (fun _ => TxnState.growing)).2.2
        = _ from h.2.2]
    decide

/-! ### LockUpgrade grant section -/

/-- The transaction-side state the lock manager reads and writes:
`GetState`, `GetSharedLockSet`, `GetExclusiveLockSet` (RIDs as `Nat`). -/
structure TxnRecord where
  state : TxnState
  shared_lock_set : List Nat
  exclusive_lock_set : List Nat
deriving Repr, DecidableEq

/-- The grant loop at the end of `LockManager::LockUpgrade` (lines
138–147).  The C++ loop header is `for (auto iter : ...)` — it iterates
**by value**, so `iter.granted_ = true` and
`iter.lock_mode_ = LockMode::EXCLUSIVE` are assignments into a copy of
the queue element and are lost when the iteration ends, while the
updates made through the `txn` pointer are real.  The model reproduces
exactly that: the dead stores land in `_iter`, and the returned queue
is element-wise the input queue. -/
def lockUpgradeGrantLoop (txnId : Nat) (rid : Nat) :
    List LockRequest → TxnRecord → List LockRequest × TxnRecord
  | [], txn => ([], txn)
  | r :: rest, txn =>
    let iter := r
    if iter.txn_id = txnId then
      let _iter := { iter with granted := true,
                               lock_mode := LockMode.exclusive }
      let txn := { txn with state := TxnState.growing,
                            shared_lock_set := txn.shared_lock_set.erase rid,
                            exclusive_lock_set :=
                              rid :: txn.exclusive_lock_set }
      (r :: rest, txn)
    else
      let res := lockUpgradeGrantLoop txnId rid rest txn
      (r :: res.1, res.2)

/-- C6: the code evaluated at the failing input.  Transaction 1 holds a
granted SHARED request on rid 4 and upgrades with no other holders; the
grant section moves rid 4 from the shared to the exclusive lock set,
but the queue entry keeps `lock_mode = SHARED` (and its old granted
flag), because the loop iterates by value — contradicting the claim
that the entry's mode is rewritten to EXCLUSIVE. -/
theorem C6_upgrade_queue_entry_not_rewritten :
    (lockUpgradeGrantLoop 1 4
      [{ txn_id := 1, lock_mode := LockMode.shared, granted := true }]
      { state := TxnState.growing, shared_lock_set := [4],
        exclusive_lock_set := [] }).1
      = [{ txn_id := 1, lock_mode := LockMode.shared, granted := true }]
    ∧ (lockUpgradeGrantLoop 1 4
      [{ txn_id := 1, lock_mode := LockMode.shared, granted := true }]
      { state := TxnState.growing, shared_lock_set := [4],
        exclusive_lock_set := [] }).2.shared_lock_set = []
    ∧ (4 : Nat) ∈ (lockUpgradeGrantLoop 1 4
      [{ txn_id := 1, lock_mode := LockMode.shared, granted := true }]
      { state := TxnState.growing, shared_lock_set := [4],
        exclusive_lock_set := [] }).2.exclusive_lock_set := by decide

/-- The queue is returned element-wise unchanged by the grant loop of
`LockUpgrade`, whatever the input: the by-value iteration can never
rewrite a request. -/
theorem lockUpgradeGrantLoop_queue_unchanged (txnId rid : Nat)
    (q : List LockRequest) (txn : TxnRecord) :
    (lockUpgradeGrantLoop txnId rid q txn).1 = q := by
  induction q generalizing txn with
  | nil => rfl
  | cons r rest ih =>
    rw [lockUpgradeGrantLoop]
    by_cases h : r.txn_id = txnId
    · rw [if_pos h]
    · rw [if_neg h]
      simp [ih]

/-! ## Extendible hash table: latch / pin discipline
(src/container/hash/extendible_hash_table.cpp)

`Insert` (lines 130–154) and `Merge` (lines 289–357) are straight-line
code whose branches depend on a few tests (bucket full? index out of
range? local depth zero? depths mismatch? bucket non-empty?).  For the
latch- and pin-discipline claims we record the ordered trace of
latch/pin events each path performs, with the branch outcomes as
parameters; each trace is transcribed line by line from the source. -/

inductive HEvent where
  | tableRLock
  | tableRUnlock
  | tableWLock
  | tableWUnlock
  | fetchPage (pid : Int)
  | wLatch
  | wUnlatch
  | rLatch
  | rUnlatch
  | unpinPage (pid : Int) (dirty : Bool)
  | deletePage (pid : Int)
  | callSplitInsert
deriving Repr, DecidableEq

/-- The event trace of `ExtendibleHashTable::Insert` (lines 130–154):
RLock the table, fetch directory and bucket, WLatch the bucket; if the
bucket is not full, insert, WUnlatch, unpin bucket dirty, unpin
directory clean, and return — the source returns here *without*
`table_latch_.RUnlock()`; if full, WUnlatch, unpin both clean, RUnlock,
and delegate to `SplitInsert`. -/
def insertEvents (dirPid bucketPid : Int) (isFull : Bool) : List HEvent :=
  [HEvent.tableRLock, HEvent.fetchPage dirPid, HEvent.fetchPage bucketPid,
   HEvent.wLatch] ++
  (if !isFull then
    [HEvent.wUnlatch, HEvent.unpinPage bucketPid true,
     HEvent.unpinPage dirPid false]
   else
    [HEvent.wUnlatch, HEvent.unpinPage bucketPid false,
     HEvent.unpinPage dirPid false, HEvent.tableRUnlock,
     HEvent.callSplitInsert])

/-- The event trace of `ExtendibleHashTable::Merge` (lines 289–357):
WLock the table, fetch the directory; abort paths in source order
(index out of active range — which returns *without* unpinning the
directory —, local depth zero, depth mismatch with the split image,
then fetch + RLatch the target and abort if it is non-empty);
otherwise delete the empty target bucket, rewrite the directory and
unpin it dirty. -/
def mergeEvents (dirPid targetPid : Int)
    (outOfRange ldZero ldMismatch notEmpty : Bool) : List HEvent :=
  HEvent.tableWLock :: HEvent.fetchPage dirPid ::
  (if outOfRange then [HEvent.tableWUnlock]
   else if ldZero then
     [HEvent.unpinPage dirPid false, HEvent.tableWUnlock]
   else if ldMismatch then
     [HEvent.unpinPage dirPid false, HEvent.tableWUnlock]
   else HEvent.fetchPage targetPid :: HEvent.rLatch ::
     (if notEmpty then
        [HEvent.rUnlatch, HEvent.unpinPage targetPid false,
         HEvent.unpinPage dirPid false, HEvent.tableWUnlock]
      else
        [HEvent.rUnlatch, HEvent.unpinPage targetPid false,
         HEvent.deletePage targetPid, HEvent.unpinPage dirPid true,
         HEvent.tableWUnlock]))

/-- C4: the code evaluated at the failing input.  On the not-full path
`Insert` unpins the bucket dirty and the directory clean as claimed,
but returns without ever executing `table_latch_.RUnlock()` — the read
latch acquired at entry leaks (the full path does release it); this
contradicts the claim that every return path releases the table read
latch. -/
theorem C4_insert_not_full_leaks_table_latch :
    (insertEvents 0 1 false).count HEvent.tableRLock = 1
    ∧ (insertEvents 0 1 false).count HEvent.tableRUnlock = 0
    ∧ HEvent.unpinPage 1 true ∈ insertEvents 0 1 false
    ∧ HEvent.unpinPage 0 false ∈ insertEvents 0 1 false
    ∧ (insertEvents 0 1 true).count HEvent.tableRUnlock = 1 := by decide

/-- C5: the code evaluated at the failing input.  On `Merge`'s abort
path for a target index outside the active directory range, the
directory page was fetched (pinned) but no `UnpinPage` for it is ever
executed — the pin leaks; every other `Merge` path unpins the
directory exactly once.  This contradicts the claim that every fetched
page is unpinned on every exit path. -/
theorem C5_merge_out_of_range_leaks_directory_pin :
    HEvent.fetchPage 7 ∈ mergeEvents 7 8 true false false false
    ∧ HEvent.unpinPage 7 true ∉ mergeEvents 7 8 true false false false
    ∧ HEvent.unpinPage 7 false ∉ mergeEvents 7 8 true false false false
    ∧ (mergeEvents 7 8 false false false false).count
        (HEvent.unpinPage 7 true) = 1
    ∧ (mergeEvents 7 8 false false false true).count
        (HEvent.unpinPage 7 false) = 1
    ∧ (mergeEvents 7 8 false true false false).count
        (HEvent.unpinPage 7 false) = 1 := by decide

/-! ## Extendible hash table: directory transformation of SplitInsert

`ExtendibleHashTable::SplitInsert` (lines 157–248) mutates the
directory page through `HashTableDirectoryPage` accessors.  The
directory page class itself is not part of the source under
verification (only its callers are), so its accessors are modelled
from the spec where noted; the `SplitInsert` transformation below is a
line-by-line translation of the source.  The directory is a pair of
total maps over slot indices; only slots below `Size()` are active. -/

/-- Modelled from the spec: `MAX_BUCKET_DEPTH` comes from a header not
in the source tree; the spec gives `MAX_GLOBAL_DEPTH = 9` and
`MAX_BUCKET_DEPTH ≤ MAX_GLOBAL_DEPTH`. -/
def MAX_BUCKET_DEPTH : Nat := 9

structure HashTableDirectoryPage where
  global_depth : Nat
  bucket_page_ids : Nat → Int
  local_depths : Nat → Nat

namespace HashTableDirectoryPage

/-- `HashTableDirectoryPage::Size()`: the active directory size
`1 << global_depth`. -/
def size (d : HashTableDirectoryPage) : Nat := 1 <<< d.global_depth

/-- `GetGlobalDepthMask()`: `(1 << global_depth) - 1`. -/
def GetGlobalDepthMask (d : HashTableDirectoryPage) : Nat :=
  (1 <<< d.global_depth) - 1

/-- `GetLocalDepthMask(i)`: `(1 << local_depths[i]) - 1`. -/
def GetLocalDepthMask (d : HashTableDirectoryPage) (i : Nat) : Nat :=
  (1 <<< d.local_depths i) - 1

/-- Modelled from the spec: `GetLocalHighBit(i)` is the split-image
index `i ^ (1 << (local_depth − 1))` (the local-high-bit flip); the
directory page implementation is not in the source tree. -/
def GetLocalHighBit (d : HashTableDirectoryPage) (i : Nat) : Nat :=
  i ^^^ (1 <<< (d.local_depths i - 1))

/-- `SetBucketPageId(i, pid)`. -/
def SetBucketPageId (d : HashTableDirectoryPage) (i : Nat) (pid : Int) :
    HashTableDirectoryPage :=
  { d with bucket_page_ids := fun j => if j = i then pid
                              else d.bucket_page_ids j }

/-- `SetLocalDepth(i, ld)`. -/
def SetLocalDepth (d : HashTableDirectoryPage) (i : Nat) (ld : Nat) :
    HashTableDirectoryPage :=
  { d with local_depths := fun j => if j = i then ld
                           else d.local_depths j }

/-- `IncrLocalDepth(i)`. -/
def IncrLocalDepth (d : HashTableDirectoryPage) (i : Nat) :
    HashTableDirectoryPage :=
  d.SetLocalDepth i (d.local_depths i + 1)

/-- Modelled from the spec: `IncrGlobalDepth()` doubles the directory;
new slots inherit their low-order siblings' page id and local depth
(the directory page implementation is not in the source tree). -/
def IncrGlobalDepth (d : HashTableDirectoryPage) :
    HashTableDirectoryPage :=
  { global_depth := d.global_depth + 1,
    bucket_page_ids := fun j =>
      if 1 <<< d.global_depth ≤ j ∧ j < 1 <<< (d.global_depth + 1) then
        d.bucket_page_ids (j - 1 <<< d.global_depth)
      else d.bucket_page_ids j,
    local_depths := fun j =>
      if 1 <<< d.global_depth ≤ j ∧ j < 1 <<< (d.global_depth + 1) then
        d.local_depths (j - 1 <<< d.global_depth)
      else d.local_depths j }

end HashTableDirectoryPage

/-- `ExtendibleHashTable::KeyToDirectoryIndex` with the key already
hashed: `hash & GetGlobalDepthMask()`. -/
def KeyToDirectoryIndex (d : HashTableDirectoryPage) (hash : Nat) : Nat :=
  hash &&& d.GetGlobalDepthMask

/-- `ExtendibleHashTable::KeyToPageId` with the key already hashed. -/
def KeyToPageId (d : HashTableDirectoryPage) (hash : Nat) : Int :=
  d.bucket_page_ids (KeyToDirectoryIndex d hash)

/-- The first and third directory-rewrite loops of `SplitInsert`
(lines 199–206 and 211–218): walk down from `i` in strides of `diff`,
setting the slot's page id to `pid` and its local depth to the current
local depth of `sbi`, stopping after the slot with `i < diff`.  The
fuel argument (`i + 1` at call sites) bounds the iteration count; with
`diff ≥ 1` it is never exhausted. -/
def strideDown (d : HashTableDirectoryPage) (fuel : Nat) (i diff : Nat)
    (pid : Int) (sbi : Nat) : HashTableDirectoryPage :=
  match fuel with
  | 0 => d
  | fuel + 1 =>
    let d1 := d.SetBucketPageId i pid
    let d2 := d1.SetLocalDepth i (d1.local_depths sbi)
    if i < diff then d2
    else strideDown d2 fuel (i - diff) diff pid sbi

/-- The second and fourth directory-rewrite loops of `SplitInsert`
(lines 207–210 and 219–222): walk up from `i` in strides of `diff`
while `i < Size()`, with the same per-slot writes. -/
def strideUp (d : HashTableDirectoryPage) (fuel : Nat) (i diff : Nat)
    (pid : Int) (sbi : Nat) : HashTableDirectoryPage :=
  match fuel with
  | 0 => d
  | fuel + 1 =>
    if d.size ≤ i then d
    else
      let d1 := d.SetBucketPageId i pid
      let d2 := d1.SetLocalDepth i (d1.local_depths sbi)
      strideUp d2 fuel (i + diff) diff pid sbi

/-- The directory transformation performed by one
`ExtendibleHashTable::SplitInsert` call (lines 157–222), with the key
already hashed and the image bucket's freshly allocated page id as a
parameter.  Bucket-page contents (snapshot, reset, rehash) do not touch
the directory and are omitted. -/
def splitInsertDir (d : HashTableDirectoryPage) (hash : Nat)
    (imagePid : Int) : HashTableDirectoryPage :=
  let split_bucket_index := KeyToDirectoryIndex d hash
  let split_bucket_depth := d.local_depths split_bucket_index
  if MAX_BUCKET_DEPTH ≤ split_bucket_depth then d
  else
    let d := if split_bucket_depth = d.global_depth
             then d.IncrGlobalDepth else d
    let d := d.IncrLocalDepth split_bucket_index
    let split_bucket_page_id := KeyToPageId d hash
    let split_image_bucket_index := d.GetLocalHighBit split_bucket_index
    let d := d.SetLocalDepth split_image_bucket_index
               (d.local_depths split_bucket_index)
    let d := d.SetBucketPageId split_image_bucket_index imagePid
    let diff := 1 <<< d.local_depths split_bucket_index
    let d := strideDown d (split_bucket_index + 1) split_bucket_index diff
               split_bucket_page_id split_bucket_index
    let d := strideUp d d.size split_bucket_index diff
               split_bucket_page_id split_bucket_index
    let d := strideDown d (split_image_bucket_index + 1)
               split_image_bucket_index diff imagePid split_bucket_index
    let d := strideUp d d.size split_image_bucket_index diff
               imagePid split_bucket_index
    d

/-- Spec invariant §8.3 together with §8.4: every active slot's local
depth is bounded by the global depth, and two active slots agreeing on
the low `local_depth` bits share the bucket page id and the local
depth. -/
@[reducible] def DirInvariant (d : HashTableDirectoryPage) : Prop :=
  ∀ i, i < d.size →
    d.local_depths i ≤ d.global_depth
    ∧ ∀ j, j < d.size →
        j &&& ((1 <<< d.local_depths i) - 1)
          = i &&& ((1 <<< d.local_depths i) - 1) →
        d.bucket_page_ids j = d.bucket_page_ids i
        ∧ d.local_depths j = d.local_depths i

/-! ### Arithmetic bridges for the directory proofs -/

lemma shiftLeft_one_eq (k : Nat) : (1 : Nat) <<< k = 2 ^ k := by
  rw [Nat.shiftLeft_eq, one_mul]

lemma and_mask_eq_mod (x k : Nat) : x &&& ((1 <<< k) - 1) = x % 2 ^ k := by
  rw [shiftLeft_one_eq]
  exact Nat.and_pow_two_sub_one_eq_mod x k

lemma mod_two_pow_eq_iff_testBit (a b k : Nat) :
    a % 2 ^ k = b % 2 ^ k ↔ ∀ i, i < k → a.testBit i = b.testBit i := by
  constructor
  · intro h i hi
    have h2 := congrArg (fun x => Nat.testBit x i) h
    simpa [Nat.testBit_mod_two_pow, hi] using h2
  · intro h
    apply Nat.eq_of_testBit_eq
    intro i
    rw [Nat.testBit_mod_two_pow, Nat.testBit_mod_two_pow]
    by_cases hi : i < k
    · simp [hi, h i hi]
    · simp [hi]

lemma xor_two_pow_mod (s k : Nat) :
    (s ^^^ 2 ^ k) % 2 ^ k = s % 2 ^ k := by
  rw [mod_two_pow_eq_iff_testBit]
  intro i hi
  rw [Nat.testBit_xor, Nat.testBit_two_pow_of_ne (Nat.ne_of_gt hi)]
  simp

lemma xor_two_pow_mod_succ_ne (s k : Nat) :
    (s ^^^ 2 ^ k) % 2 ^ (k + 1) ≠ s % 2 ^ (k + 1) := by
  intro h
  have h2 := (mod_two_pow_eq_iff_testBit _ _ _).mp h k (by omega)
  rw [Nat.testBit_xor, Nat.testBit_two_pow_self] at h2
  cases hb : s.testBit k <;> rw [hb] at h2 <;> simp at h2

lemma xor_two_pow_ne_self (s k : Nat) : s ^^^ 2 ^ k ≠ s := by
  intro h
  have h2 := congrArg (fun x => Nat.testBit x k) h
  simp only [Nat.testBit_xor, Nat.testBit_two_pow_self] at h2
  cases hb : s.testBit k <;> rw [hb] at h2 <;> simp at h2

lemma xor_two_pow_lt {s k G : Nat} (hs : s < 2 ^ G) (hk : k < G) :
    s ^^^ 2 ^ k < 2 ^ G :=
  Nat.xor_lt_two_pow hs (Nat.pow_lt_pow_right (by omega) hk)

lemma mod_class_split (j s k : Nat) :
    j % 2 ^ k = s % 2 ^ k ↔
      (j % 2 ^ (k + 1) = s % 2 ^ (k + 1)
       ∨ j % 2 ^ (k + 1) = (s ^^^ 2 ^ k) % 2 ^ (k + 1)) := by
  constructor
  · intro h
    rw [mod_two_pow_eq_iff_testBit] at h
    by_cases hb : j.testBit k = s.testBit k
    · left
      rw [mod_two_pow_eq_iff_testBit]
      intro i hi
      by_cases hik : i < k
      · exact h i hik
      · have : i = k := by omega
        subst this
        exact hb
    · right
      rw [mod_two_pow_eq_iff_testBit]
      intro i hi
      by_cases hik : i < k
      · rw [h i hik, Nat.testBit_xor,
          Nat.testBit_two_pow_of_ne (Nat.ne_of_gt hik)]
        simp
      · have : i = k := by omega
        subst this
        rw [Nat.testBit_xor, Nat.testBit_two_pow_self]
        cases hjb : j.testBit i <;> cases hsb : s.testBit i <;>
          simp_all
  · intro h
    rcases h with h | h
    · have h2 : j % 2 ^ (k + 1) % 2 ^ k = s % 2 ^ (k + 1) % 2 ^ k := by
        rw [h]
      rwa [Nat.mod_mod_of_dvd _ (by rw [pow_succ]; exact ⟨2, rfl⟩),
        Nat.mod_mod_of_dvd _ (by rw [pow_succ]; exact ⟨2, rfl⟩)] at h2
    · have h2 : j % 2 ^ (k + 1) % 2 ^ k = (s ^^^ 2 ^ k) % 2 ^ (k + 1)
          % 2 ^ k := by rw [h]
      rw [Nat.mod_mod_of_dvd _ (by rw [pow_succ]; exact ⟨2, rfl⟩),
        Nat.mod_mod_of_dvd _ (by rw [pow_succ]; exact ⟨2, rfl⟩)] at h2
      rwa [xor_two_pow_mod] at h2

lemma stride_between {i j diff : Nat} (hmod : j % diff = i % diff)
    (hij : i < j) : i + diff ≤ j := by
  have hdvd : diff ∣ (j - i) := by
    have := Nat.sub_mod_eq_zero_of_mod_eq hmod
    exact Nat.dvd_of_mod_eq_zero this
  rcases Nat.eq_zero_or_pos diff with h0 | hpos
  · subst h0
    simp at hdvd
    omega
  · have := Nat.le_of_dvd (by omega) hdvd
    omega

namespace HashTableDirectoryPage

@[simp] lemma SetBucketPageId_gd (d : HashTableDirectoryPage) (i : Nat)
    (pid : Int) : (d.SetBucketPageId i pid).global_depth = d.global_depth :=
  rfl

@[simp] lemma SetBucketPageId_depths (d : HashTableDirectoryPage) (i : Nat)
    (pid : Int) (j : Nat) :
    (d.SetBucketPageId i pid).local_depths j = d.local_depths j := rfl

lemma SetBucketPageId_ids (d : HashTableDirectoryPage) (i : Nat)
    (pid : Int) (j : Nat) :
    (d.SetBucketPageId i pid).bucket_page_ids j
      = if j = i then pid else d.bucket_page_ids j := rfl

@[simp] lemma SetLocalDepth_gd (d : HashTableDirectoryPage) (i ld : Nat) :
    (d.SetLocalDepth i ld).global_depth = d.global_depth := rfl

@[simp] lemma SetLocalDepth_ids (d : HashTableDirectoryPage) (i ld : Nat)
    (j : Nat) :
    (d.SetLocalDepth i ld).bucket_page_ids j = d.bucket_page_ids j := rfl

lemma SetLocalDepth_depths (d : HashTableDirectoryPage) (i ld : Nat)
    (j : Nat) :
    (d.SetLocalDepth i ld).local_depths j
      = if j = i then ld else d.local_depths j := rfl

@[simp] lemma SetBucketPageId_size (d : HashTableDirectoryPage) (i : Nat)
    (pid : Int) : (d.SetBucketPageId i pid).size = d.size := rfl

@[simp] lemma SetLocalDepth_size (d : HashTableDirectoryPage) (i ld : Nat) :
    (d.SetLocalDepth i ld).size = d.size := rfl

end HashTableDirectoryPage

lemma strideDown_spec (diff : Nat) (hdiff : 0 < diff) (pid : Int)
    (sbi : Nat) :
    ∀ (fuel : Nat) (d : HashTableDirectoryPage) (i : Nat),
      i < diff * fuel →
      (strideDown d fuel i diff pid sbi).global_depth = d.global_depth
      ∧ (∀ j, (strideDown d fuel i diff pid sbi).bucket_page_ids j
          = if j ≤ i ∧ j % diff = i % diff then pid
            else d.bucket_page_ids j)
      ∧ (∀ j, (strideDown d fuel i diff pid sbi).local_depths j
          = if j ≤ i ∧ j % diff = i % diff then d.local_depths sbi
            else d.local_depths j) := by
  intro fuel
  induction fuel with
  | zero =>
    intro d i hi
    exact absurd hi (by omega)
  | succ fuel ih =>
    intro d i hi
    have hval : ((d.SetBucketPageId i pid).SetLocalDepth i
        ((d.SetBucketPageId i pid).local_depths sbi)).local_depths sbi
        = d.local_depths sbi := by
      rw [HashTableDirectoryPage.SetLocalDepth_depths]
      by_cases h : sbi = i <;> simp [h]
    rw [strideDown]
    by_cases hlt : i < diff
    · rw [if_pos hlt]
      refine ⟨rfl, ?_, ?_⟩
      · intro j
        rw [HashTableDirectoryPage.SetLocalDepth_ids,
          HashTableDirectoryPage.SetBucketPageId_ids]
        by_cases h2 : j = i
        · subst h2
          rw [if_pos rfl, if_pos ⟨le_refl j, rfl⟩]
        · rw [if_neg h2, if_neg ?_]
          rintro ⟨hle, hmod⟩
          rw [Nat.mod_eq_of_lt (by omega), Nat.mod_eq_of_lt hlt] at hmod
          exact h2 hmod
      · intro j
        rw [HashTableDirectoryPage.SetLocalDepth_depths]
        by_cases h2 : j = i
        · subst h2
          rw [if_pos rfl, if_pos ⟨le_refl j, rfl⟩,
            HashTableDirectoryPage.SetBucketPageId_depths]
        · rw [if_neg h2, HashTableDirectoryPage.SetBucketPageId_depths,
            if_neg ?_]
          rintro ⟨hle, hmod⟩
          rw [Nat.mod_eq_of_lt (by omega), Nat.mod_eq_of_lt hlt] at hmod
          exact h2 hmod
    · rw [if_neg hlt]
      have hge : diff ≤ i := le_of_not_lt hlt
      have hi2 : i - diff < diff * fuel := by
        rw [Nat.mul_succ] at hi
        omega
      obtain ⟨hgd, hids, hdep⟩ := ih
        ((d.SetBucketPageId i pid).SetLocalDepth i
          ((d.SetBucketPageId i pid).local_depths sbi)) (i - diff) hi2
      have hm : i % diff = (i - diff) % diff := Nat.mod_eq_sub_mod hge
      refine ⟨by rw [hgd]; rfl, ?_, ?_⟩
      · intro j
        rw [hids j]
        by_cases h1 : j ≤ i - diff ∧ j % diff = (i - diff) % diff
        · rw [if_pos h1, if_pos ⟨by omega, by rw [h1.2, ← hm]⟩]
        · rw [if_neg h1, HashTableDirectoryPage.SetLocalDepth_ids,
            HashTableDirectoryPage.SetBucketPageId_ids]
          by_cases h2 : j = i
          · subst h2
            rw [if_pos rfl, if_pos ⟨le_refl j, rfl⟩]
          · rw [if_neg h2, if_neg ?_]
            rintro ⟨hle, hmod⟩
            have hjlt : j < i := by omega
            have := stride_between (hmod.symm) hjlt
            exact h1 ⟨by omega, by rw [hmod, hm]⟩
      · intro j
        rw [hdep j, hval]
        by_cases h1 : j ≤ i - diff ∧ j % diff = (i - diff) % diff
        · rw [if_pos h1, if_pos ⟨by omega, by rw [h1.2, ← hm]⟩]
        · rw [if_neg h1, HashTableDirectoryPage.SetLocalDepth_depths]
          by_cases h2 : j = i
          · subst h2
            rw [if_pos rfl, if_pos ⟨le_refl j, rfl⟩,
              HashTableDirectoryPage.SetBucketPageId_depths]
          · rw [if_neg h2, HashTableDirectoryPage.SetBucketPageId_depths,
              if_neg ?_]
            rintro ⟨hle, hmod⟩
            have hjlt : j < i := by omega
            have := stride_between (hmod.symm) hjlt
            exact h1 ⟨by omega, by rw [hmod, hm]⟩

lemma strideUp_spec (diff : Nat) (hdiff : 0 < diff) (pid : Int)
    (sbi : Nat) :
    ∀ (fuel : Nat) (d : HashTableDirectoryPage) (i : Nat),
      d.size ≤ i + diff * fuel →
      (strideUp d fuel i diff pid sbi).global_depth = d.global_depth
      ∧ (∀ j, (strideUp d fuel i diff pid sbi).bucket_page_ids j
          = if i ≤ j ∧ j < d.size ∧ j % diff = i % diff then pid
            else d.bucket_page_ids j)
      ∧ (∀ j, (strideUp d fuel i diff pid sbi).local_depths j
          = if i ≤ j ∧ j < d.size ∧ j % diff = i % diff
            then d.local_depths sbi
            else d.local_depths j) := by
  intro fuel
  induction fuel with
  | zero =>
    intro d i hi
    rw [strideUp]
    refine ⟨rfl, ?_, ?_⟩ <;> intro j <;>
      rw [if_neg (by rintro ⟨h1, h2, _⟩; omega)]
  | succ fuel ih =>
    intro d i hi
    rw [strideUp]
    by_cases hsz : d.size ≤ i
    · rw [if_pos hsz]
      refine ⟨rfl, ?_, ?_⟩ <;> intro j <;>
        rw [if_neg (by rintro ⟨h1, h2, _⟩; omega)]
    · rw [if_neg hsz]
      have hval : ((d.SetBucketPageId i pid).SetLocalDepth i
          ((d.SetBucketPageId i pid).local_depths sbi)).local_depths sbi
          = d.local_depths sbi := by
        rw [HashTableDirectoryPage.SetLocalDepth_depths]
        by_cases h : sbi = i <;> simp [h]
      have hsz2 : ((d.SetBucketPageId i pid).SetLocalDepth i
          ((d.SetBucketPageId i pid).local_depths sbi)).size
          ≤ (i + diff) + diff * fuel := by
        rw [HashTableDirectoryPage.SetLocalDepth_size,
          HashTableDirectoryPage.SetBucketPageId_size]
        rw [Nat.mul_succ] at hi
        omega
      obtain ⟨hgd, hids, hdep⟩ := ih
        ((d.SetBucketPageId i pid).SetLocalDepth i
          ((d.SetBucketPageId i pid).local_depths sbi)) (i + diff) hsz2
      have hm : (i + diff) % diff = i % diff := Nat.add_mod_right i diff
      refine ⟨by rw [hgd]; rfl, ?_, ?_⟩
      · intro j
        rw [hids j]
        rw [show ((d.SetBucketPageId i pid).SetLocalDepth i
            ((d.SetBucketPageId i pid).local_depths sbi)).size = d.size
          from rfl]
        by_cases h1 : i + diff ≤ j ∧ j < d.size ∧ j % diff = (i + diff) % diff
        · rw [if_pos h1, if_pos ⟨by omega, h1.2.1, by rw [h1.2.2, hm]⟩]
        · rw [if_neg h1, HashTableDirectoryPage.SetLocalDepth_ids,
            HashTableDirectoryPage.SetBucketPageId_ids]
          by_cases h2 : j = i
          · subst h2
            rw [if_pos rfl, if_pos ⟨le_refl j, by omega, rfl⟩]
          · rw [if_neg h2, if_neg ?_]
            rintro ⟨hle, hlt, hmod⟩
            have hij : i < j := by omega
            have := stride_between hmod hij
            exact h1 ⟨this, hlt, by rw [hmod, hm]⟩
      · intro j
        rw [hdep j, hval]
        rw [show ((d.SetBucketPageId i pid).SetLocalDepth i
            ((d.SetBucketPageId i pid).local_depths sbi)).size = d.size
          from rfl]
        by_cases h1 : i + diff ≤ j ∧ j < d.size ∧ j % diff = (i + diff) % diff
        · rw [if_pos h1, if_pos ⟨by omega, h1.2.1, by rw [h1.2.2, hm]⟩]
        · rw [if_neg h1, HashTableDirectoryPage.SetLocalDepth_depths]
          by_cases h2 : j = i
          · subst h2
            rw [if_pos rfl, if_pos ⟨le_refl j, by omega, rfl⟩,
              HashTableDirectoryPage.SetBucketPageId_depths]
          · rw [if_neg h2, HashTableDirectoryPage.SetBucketPageId_depths,
              if_neg ?_]
            rintro ⟨hle, hlt, hmod⟩
            have hij : i < j := by omega
            have := stride_between hmod hij
            exact h1 ⟨this, hlt, by rw [hmod, hm]⟩

lemma and_mask_eq_mod' (x k : Nat) : x &&& (2 ^ k - 1) = x % 2 ^ k :=
  Nat.and_pow_two_sub_one_eq_mod x k

/-- The invariant in modular-arithmetic form. -/
lemma dirInvariant_mod (d : HashTableDirectoryPage) :
    DirInvariant d ↔
      ∀ i, i < 2 ^ d.global_depth →
        d.local_depths i ≤ d.global_depth
        ∧ ∀ j, j < 2 ^ d.global_depth →
            j % 2 ^ d.local_depths i = i % 2 ^ d.local_depths i →
            d.bucket_page_ids j = d.bucket_page_ids i
            ∧ d.local_depths j = d.local_depths i := by
  unfold DirInvariant HashTableDirectoryPage.size
  rw [shiftLeft_one_eq]
  constructor
  · intro h i hi
    obtain ⟨h1, h2⟩ := h i hi
    refine ⟨h1, fun j hj hm => h2 j hj ?_⟩
    rw [and_mask_eq_mod, and_mask_eq_mod]
    exact hm
  · intro h i hi
    obtain ⟨h1, h2⟩ := h i hi
    refine ⟨h1, fun j hj hm => h2 j hj ?_⟩
    rw [and_mask_eq_mod, and_mask_eq_mod] at hm
    exact hm

lemma incrG_gd (d : HashTableDirectoryPage) :
    d.IncrGlobalDepth.global_depth = d.global_depth + 1 := rfl

lemma incrG_apply (d : HashTableDirectoryPage) {j : Nat}
    (hj : j < 2 ^ (d.global_depth + 1)) :
    d.IncrGlobalDepth.bucket_page_ids j
      = d.bucket_page_ids (j % 2 ^ d.global_depth)
    ∧ d.IncrGlobalDepth.local_depths j
      = d.local_depths (j % 2 ^ d.global_depth) := by
  have hps : (2 : Nat) ^ (d.global_depth + 1) = 2 ^ d.global_depth * 2 :=
    pow_succ 2 d.global_depth
  constructor <;>
  · show (if 1 <<< d.global_depth ≤ j ∧ j < 1 <<< (d.global_depth + 1)
        then _ else _) = _
    rw [shiftLeft_one_eq, shiftLeft_one_eq]
    by_cases h : 2 ^ d.global_depth ≤ j
    · rw [if_pos ⟨h, hj⟩, show j % 2 ^ d.global_depth
          = j - 2 ^ d.global_depth by
        rw [Nat.mod_eq_sub_mod h, Nat.mod_eq_of_lt (by omega)]]
    · rw [if_neg (fun hc => h hc.1), Nat.mod_eq_of_lt (by omega)]

lemma incrG_invariant (d : HashTableDirectoryPage)
    (hInv : DirInvariant d) : DirInvariant d.IncrGlobalDepth := by
  rw [dirInvariant_mod] at hInv ⊢
  rw [incrG_gd]
  intro i hi
  obtain ⟨hidsi, hdepi⟩ := incrG_apply d hi
  have hpos : 0 < 2 ^ d.global_depth := Nat.pos_pow_of_pos _ (by omega)
  have hi' : i % 2 ^ d.global_depth < 2 ^ d.global_depth :=
    Nat.mod_lt _ hpos
  obtain ⟨hb, hu⟩ := hInv (i % 2 ^ d.global_depth) hi'
  constructor
  · rw [hdepi]
    omega
  · intro j hj hmod
    obtain ⟨hidsj, hdepj⟩ := incrG_apply d hj
    rw [hdepi] at hmod ⊢
    have hdvd : (2 : Nat) ^ d.local_depths (i % 2 ^ d.global_depth)
        ∣ 2 ^ d.global_depth := pow_dvd_pow 2 hb
    have hmod2 : j % 2 ^ d.global_depth
        % 2 ^ d.local_depths (i % 2 ^ d.global_depth)
        = i % 2 ^ d.global_depth
          % 2 ^ d.local_depths (i % 2 ^ d.global_depth) := by
      rw [Nat.mod_mod_of_dvd _ hdvd, Nat.mod_mod_of_dvd _ hdvd]
      exact hmod
    obtain ⟨hids, hdep⟩ := hu (j % 2 ^ d.global_depth)
      (Nat.mod_lt _ hpos) hmod2
    exact ⟨by rw [hidsj, hidsi]; exact hids,
           by rw [hdepj]; exact hdep⟩

/-- Unfolding of `splitInsertDir` when the depth guard passes, with the
intermediate directories named. -/
lemma splitInsertDir_eq (d : HashTableDirectoryPage) (hash : Nat)
    (imagePid : Int)
    (hguard : ¬ MAX_BUCKET_DEPTH
        ≤ d.local_depths (KeyToDirectoryIndex d hash)) :
    splitInsertDir d hash imagePid =
      (let sbi := KeyToDirectoryIndex d hash
       let dA := if d.local_depths sbi = d.global_depth
                 then d.IncrGlobalDepth else d
       let dB := dA.IncrLocalDepth sbi
       let splitPid := KeyToPageId dB hash
       let img := dB.GetLocalHighBit sbi
       let dD := (dB.SetLocalDepth img
                   (dB.local_depths sbi)).SetBucketPageId img imagePid
       let diff := 1 <<< dD.local_depths sbi
       let dE := strideDown dD (sbi + 1) sbi diff splitPid sbi
       let dF := strideUp dE dE.size sbi diff splitPid sbi
       let dG := strideDown dF (img + 1) img diff imagePid sbi
       strideUp dG dG.size img diff imagePid sbi) := by
  simp only [splitInsertDir]
  rw [if_neg hguard]

/-- Full description of the directory after a successful split: the
split partition (mod `2^(ld+1)` class of `sbi`) points at the original
bucket with depth `ld+1`, the image partition (class of
`sbi ^^^ 2^ld`) points at the image page with depth `ld+1`, and every
other slot keeps the values of the (possibly doubled) directory `dA`. -/
lemma splitInsertDir_desc (d : HashTableDirectoryPage) (hash : Nat)
    (imagePid : Int) (sbi ld G : Nat) (dA : HashTableDirectoryPage)
    (hsbi : sbi = hash % 2 ^ d.global_depth)
    (hld : ld = d.local_depths sbi)
    (hldle : ld ≤ d.global_depth)
    (hguard : ld < MAX_BUCKET_DEPTH)
    (hdA : dA = if ld = d.global_depth then d.IncrGlobalDepth else d)
    (hG : G = dA.global_depth) :
    (splitInsertDir d hash imagePid).global_depth = G
    ∧ (∀ j, j < 2 ^ G → j % 2 ^ (ld + 1) = sbi % 2 ^ (ld + 1) →
        (splitInsertDir d hash imagePid).bucket_page_ids j
          = d.bucket_page_ids sbi
        ∧ (splitInsertDir d hash imagePid).local_depths j = ld + 1)
    ∧ (∀ j, j < 2 ^ G →
        j % 2 ^ (ld + 1) = (sbi ^^^ 2 ^ ld) % 2 ^ (ld + 1) →
        (splitInsertDir d hash imagePid).bucket_page_ids j = imagePid
        ∧ (splitInsertDir d hash imagePid).local_depths j = ld + 1)
    ∧ (∀ j, j % 2 ^ (ld + 1) ≠ sbi % 2 ^ (ld + 1) →
        j % 2 ^ (ld + 1) ≠ (sbi ^^^ 2 ^ ld) % 2 ^ (ld + 1) →
        (splitInsertDir d hash imagePid).bucket_page_ids j
          = dA.bucket_page_ids j
        ∧ (splitInsertDir d hash imagePid).local_depths j
          = dA.local_depths j) := by
  have hpos : (0 : Nat) < 2 ^ d.global_depth :=
    Nat.pos_pow_of_pos _ (by omega)
  have hKTD : KeyToDirectoryIndex d hash = sbi := by
    rw [KeyToDirectoryIndex, HashTableDirectoryPage.GetGlobalDepthMask,
      and_mask_eq_mod, hsbi]
  have hsbilt : sbi < 2 ^ d.global_depth := by
    rw [hsbi]
    exact Nat.mod_lt _ hpos
  have hgdA : dA.global_depth
      = if ld = d.global_depth then d.global_depth + 1
        else d.global_depth := by
    rw [hdA]
    by_cases h : ld = d.global_depth <;> simp [h, incrG_gd]
  have hldG : ld < G := by
    rw [hG, hgdA]
    by_cases h : ld = d.global_depth
    · simp [h]
    · simp only [h, if_false]
      omega
  have hgdleG : d.global_depth ≤ G := by
    rw [hG, hgdA]
    by_cases h : ld = d.global_depth <;> simp [h]
  have hsbiltG : sbi < 2 ^ G :=
    lt_of_lt_of_le hsbilt (Nat.pow_le_pow_right (by omega) hgdleG)
  have hdA_at : ∀ k, k < 2 ^ d.global_depth →
      dA.bucket_page_ids k = d.bucket_page_ids k
      ∧ dA.local_depths k = d.local_depths k := by
    intro k hk
    rw [hdA]
    by_cases h : ld = d.global_depth
    · rw [if_pos h]
      have hk2 : k < 2 ^ (d.global_depth + 1) :=
        lt_trans hk (Nat.pow_lt_pow_right (by omega) (by omega))
      obtain ⟨h1, h2⟩ := incrG_apply d hk2
      rw [h1, h2, Nat.mod_eq_of_lt hk]
      exact ⟨rfl, rfl⟩
    · rw [if_neg h]
      exact ⟨rfl, rfl⟩
  have hdBdep_sbi : (dA.IncrLocalDepth sbi).local_depths sbi = ld + 1 := by
    rw [HashTableDirectoryPage.IncrLocalDepth,
      HashTableDirectoryPage.SetLocalDepth_depths, if_pos rfl,
      (hdA_at sbi hsbilt).2, ← hld]
  have himg : (dA.IncrLocalDepth sbi).GetLocalHighBit sbi
      = sbi ^^^ 2 ^ ld := by
    rw [HashTableDirectoryPage.GetLocalHighBit, hdBdep_sbi,
      Nat.add_sub_cancel, shiftLeft_one_eq]
  have himg_ne : sbi ^^^ 2 ^ ld ≠ sbi := xor_two_pow_ne_self sbi ld
  have himg_ltG : sbi ^^^ 2 ^ ld < 2 ^ G := xor_two_pow_lt hsbiltG hldG
  have himgmodne : (sbi ^^^ 2 ^ ld) % 2 ^ (ld + 1) ≠ sbi % 2 ^ (ld + 1) :=
    xor_two_pow_mod_succ_ne sbi ld
  have hdA_hashids : dA.bucket_page_ids (hash % 2 ^ dA.global_depth)
      = d.bucket_page_ids sbi := by
    rw [hdA]
    by_cases h : ld = d.global_depth
    · rw [if_pos h, incrG_gd]
      have hlt : hash % 2 ^ (d.global_depth + 1)
          < 2 ^ (d.global_depth + 1) :=
        Nat.mod_lt _ (Nat.pos_pow_of_pos _ (by omega))
      obtain ⟨h1, _⟩ := incrG_apply d hlt
      rw [h1, Nat.mod_mod_of_dvd _ (pow_dvd_pow 2 (Nat.le_succ _)), ← hsbi]
    · rw [if_neg h, ← hsbi]
  have hsplitPid : KeyToPageId (dA.IncrLocalDepth sbi) hash
      = d.bucket_page_ids sbi := by
    rw [KeyToPageId, KeyToDirectoryIndex,
      HashTableDirectoryPage.GetGlobalDepthMask, and_mask_eq_mod]
    exact hdA_hashids
  -- the unfolded pipeline
  have hgneg : ¬ MAX_BUCKET_DEPTH
      ≤ d.local_depths (KeyToDirectoryIndex d hash) := by
    rw [hKTD, ← hld]
    omega
  have hstep := splitInsertDir_eq d hash imagePid hgneg
  simp only [hKTD] at hstep
  have hdA' : (if d.local_depths sbi = d.global_depth
      then d.IncrGlobalDepth else d) = dA := by
    rw [hdA, hld]
  rw [hdA', himg, hsplitPid, hdBdep_sbi] at hstep
  have hdiffeq : (1 : Nat) <<< (((dA.IncrLocalDepth sbi).SetLocalDepth
      (sbi ^^^ 2 ^ ld) (ld + 1)).SetBucketPageId (sbi ^^^ 2 ^ ld)
      imagePid).local_depths sbi = 2 ^ (ld + 1) := by
    rw [HashTableDirectoryPage.SetBucketPageId_depths,
      HashTableDirectoryPage.SetLocalDepth_depths,
      if_neg (fun h => himg_ne h.symm), hdBdep_sbi, shiftLeft_one_eq]
  rw [hdiffeq] at hstep
  -- facts about the pre-loop directory dD
  set dD := ((dA.IncrLocalDepth sbi).SetLocalDepth (sbi ^^^ 2 ^ ld)
    (ld + 1)).SetBucketPageId (sbi ^^^ 2 ^ ld) imagePid with hdDdef
  have hdD_gd : dD.global_depth = G := by
    rw [hdDdef]
    show dA.global_depth = G
    exact hG.symm
  have hdD_dep_sbi : dD.local_depths sbi = ld + 1 := by
    rw [hdDdef, HashTableDirectoryPage.SetBucketPageId_depths,
      HashTableDirectoryPage.SetLocalDepth_depths,
      if_neg (fun h => himg_ne h.symm), hdBdep_sbi]
  have hdD_dep_img : dD.local_depths (sbi ^^^ 2 ^ ld) = ld + 1 := by
    rw [hdDdef, HashTableDirectoryPage.SetBucketPageId_depths,
      HashTableDirectoryPage.SetLocalDepth_depths, if_pos rfl]
  have hdD_ids_img : dD.bucket_page_ids (sbi ^^^ 2 ^ ld) = imagePid := by
    rw [hdDdef, HashTableDirectoryPage.SetBucketPageId_ids, if_pos rfl]
  have hdD_ids_ne : ∀ k, k ≠ sbi ^^^ 2 ^ ld →
      dD.bucket_page_ids k = dA.bucket_page_ids k := by
    intro k hk
    rw [hdDdef, HashTableDirectoryPage.SetBucketPageId_ids, if_neg hk]
    rfl
  have hdD_dep_ne : ∀ k, k ≠ sbi ^^^ 2 ^ ld → k ≠ sbi →
      dD.local_depths k = dA.local_depths k := by
    intro k hk1 hk2
    rw [hdDdef, HashTableDirectoryPage.SetBucketPageId_depths,
      HashTableDirectoryPage.SetLocalDepth_depths, if_neg hk1,
      HashTableDirectoryPage.IncrLocalDepth,
      HashTableDirectoryPage.SetLocalDepth_depths, if_neg hk2]
  -- the four stride layers
  have hdiffpos : (0 : Nat) < 2 ^ (ld + 1) :=
    Nat.pos_pow_of_pos _ (by omega)
  obtain ⟨hE1, hE2, hE3⟩ := strideDown_spec (2 ^ (ld + 1)) hdiffpos
    (d.bucket_page_ids sbi) sbi (sbi + 1) dD sbi
    (by
      have := Nat.mul_le_mul_right (sbi + 1) hdiffpos
      omega)
  set dE := strideDown dD (sbi + 1) sbi (2 ^ (ld + 1))
    (d.bucket_page_ids sbi) sbi with hdEdef
  simp only [hdD_dep_sbi] at hE3
  have hdE_gd : dE.global_depth = G := by rw [hdEdef, hE1, hdD_gd]
  have hdE_size : dE.size = 2 ^ G := by
    rw [HashTableDirectoryPage.size, shiftLeft_one_eq, hdE_gd]
  have hdE_dep_sbi : dE.local_depths sbi = ld + 1 := by
    rw [hdEdef, hE3 sbi, if_pos ⟨le_refl sbi, rfl⟩]
  obtain ⟨hF1, hF2, hF3⟩ := strideUp_spec (2 ^ (ld + 1)) hdiffpos
    (d.bucket_page_ids sbi) sbi dE.size dE sbi
    (by
      have := Nat.le_mul_of_pos_left dE.size hdiffpos
      omega)
  set dF := strideUp dE dE.size sbi (2 ^ (ld + 1))
    (d.bucket_page_ids sbi) sbi with hdFdef
  simp only [hdE_dep_sbi] at hF3
  have hdF_gd : dF.global_depth = G := by rw [hdFdef, hF1, hdE_gd]
  have hdF_size : dF.size = 2 ^ G := by
    rw [HashTableDirectoryPage.size, shiftLeft_one_eq, hdF_gd]
  have hdF_dep_sbi : dF.local_depths sbi = ld + 1 := by
    rw [hdFdef, hF3 sbi,
      if_pos ⟨le_refl sbi, by rw [hdE_size]; exact hsbiltG, rfl⟩]
  obtain ⟨hG1, hG2, hG3⟩ := strideDown_spec (2 ^ (ld + 1)) hdiffpos
    imagePid sbi ((sbi ^^^ 2 ^ ld) + 1) dF (sbi ^^^ 2 ^ ld)
    (by
      have := Nat.mul_le_mul_right ((sbi ^^^ 2 ^ ld) + 1) hdiffpos
      omega)
  set dG := strideDown dF ((sbi ^^^ 2 ^ ld) + 1) (sbi ^^^ 2 ^ ld)
    (2 ^ (ld + 1)) imagePid sbi with hdGdef
  simp only [hdF_dep_sbi] at hG3
  have hdG_gd : dG.global_depth = G := by rw [hdGdef, hG1, hdF_gd]
  have hdG_size : dG.size = 2 ^ G := by
    rw [HashTableDirectoryPage.size, shiftLeft_one_eq, hdG_gd]
  have hdG_dep_sbi : dG.local_depths sbi = ld + 1 := by
    rw [hdGdef, hG3 sbi,
      if_neg (fun hc => himgmodne (by rw [hc.2]))]
    exact hdF_dep_sbi
  obtain ⟨hH1, hH2, hH3⟩ := strideUp_spec (2 ^ (ld + 1)) hdiffpos
    imagePid sbi dG.size dG (sbi ^^^ 2 ^ ld)
    (by
      have := Nat.le_mul_of_pos_left dG.size hdiffpos
      omega)
  simp only [hdG_dep_sbi] at hH3
  rw [hstep]
  -- assemble the four clauses
  refine ⟨?_, ?_, ?_, ?_⟩
  · rw [hH1, hdG_gd]
  · intro j hj hjm
    have hjm2 : j % 2 ^ (ld + 1) ≠ (sbi ^^^ 2 ^ ld) % 2 ^ (ld + 1) := by
      rw [hjm]
      exact fun hc => himgmodne hc.symm
    have hnotH : ¬(sbi ^^^ 2 ^ ld ≤ j ∧ j < dG.size
        ∧ j % 2 ^ (ld + 1) = (sbi ^^^ 2 ^ ld) % 2 ^ (ld + 1)) := by
      rintro ⟨_, _, hc⟩
      exact hjm2 hc
    have hnotG : ¬(j ≤ sbi ^^^ 2 ^ ld
        ∧ j % 2 ^ (ld + 1) = (sbi ^^^ 2 ^ ld) % 2 ^ (ld + 1)) := by
      rintro ⟨_, hc⟩
      exact hjm2 hc
    constructor
    · rw [hH2 j, if_neg hnotH, hG2 j, if_neg hnotG]
      by_cases hjs : sbi ≤ j
      · rw [hF2 j, if_pos ⟨hjs, by rw [hdE_size]; exact hj, hjm⟩]
      · rw [hF2 j, if_neg (fun hc => hjs hc.1), hE2 j,
          if_pos ⟨by omega, hjm⟩]
    · rw [hH3 j, if_neg hnotH, hG3 j, if_neg hnotG]
      by_cases hjs : sbi ≤ j
      · rw [hF3 j, if_pos ⟨hjs, by rw [hdE_size]; exact hj, hjm⟩]
      · rw [hF3 j, if_neg (fun hc => hjs hc.1), hE3 j,
          if_pos ⟨by omega, hjm⟩]
  · intro j hj hjm
    constructor
    · by_cases hji : sbi ^^^ 2 ^ ld ≤ j
      · rw [hH2 j, if_pos ⟨hji, by rw [hdG_size]; exact hj, hjm⟩]
      · rw [hH2 j, if_neg (fun hc => hji hc.1), hG2 j,
          if_pos ⟨by omega, hjm⟩]
    · by_cases hji : sbi ^^^ 2 ^ ld ≤ j
      · rw [hH3 j, if_pos ⟨hji, by rw [hdG_size]; exact hj, hjm⟩]
      · rw [hH3 j, if_neg (fun hc => hji hc.1), hG3 j,
          if_pos ⟨by omega, hjm⟩]
  · intro j hjm1 hjm2
    have hjne_img : j ≠ sbi ^^^ 2 ^ ld := by
      intro hc
      exact hjm2 (by rw [hc])
    have hjne_sbi : j ≠ sbi := by
      intro hc
      exact hjm1 (by rw [hc])
    constructor
    · rw [hH2 j, if_neg (by rintro ⟨_, _, hc⟩; exact hjm2 hc),
        hG2 j, if_neg (by rintro ⟨_, hc⟩; exact hjm2 hc),
        hF2 j, if_neg (by rintro ⟨_, _, hc⟩; exact hjm1 hc),
        hE2 j, if_neg (by rintro ⟨_, hc⟩; exact hjm1 hc)]
      exact hdD_ids_ne j hjne_img
    · rw [hH3 j, if_neg (by rintro ⟨_, _, hc⟩; exact hjm2 hc),
        hG3 j, if_neg (by rintro ⟨_, hc⟩; exact hjm2 hc),
        hF3 j, if_neg (by rintro ⟨_, _, hc⟩; exact hjm1 hc),
        hE3 j, if_neg (by rintro ⟨_, hc⟩; exact hjm1 hc)]
      exact hdD_dep_ne j hjne_img hjne_sbi

/-- C1 (amended): if the directory invariant holds on entry, it holds
after the directory transformation of every `SplitInsert(key, value)`
call: every slot `j` agreeing with an active slot `i` on the low
`local_depth i` bits shares its bucket page id and local depth.  Among
the slots of the split partition, those agreeing with the split slot
`KeyToDirectoryIndex(key)` on the low `new_ld` bits keep the original
bucket page id and those agreeing with the image slot (the split slot
with bit `new_ld − 1` flipped) point to the new image page, all with
local depth `new_ld` — which side of the partition each bit value of
bit `new_ld − 1` selects depends on the split slot's own bit, not
fixedly `0` for the original and `1` for the image. -/
theorem C1_split_insert_invariant (d : HashTableDirectoryPage)
    (hash : Nat) (imagePid : Int) (hInv : DirInvariant d) :
    DirInvariant (splitInsertDir d hash imagePid)
    ∧ (d.local_depths (KeyToDirectoryIndex d hash) < MAX_BUCKET_DEPTH →
       ∀ j, j < (splitInsertDir d hash imagePid).size →
         (j &&& ((1 <<< (d.local_depths (KeyToDirectoryIndex d hash) + 1))
              - 1)
            = KeyToDirectoryIndex d hash
              &&& ((1 <<< (d.local_depths (KeyToDirectoryIndex d hash)
                   + 1)) - 1) →
            (splitInsertDir d hash imagePid).bucket_page_ids j
              = d.bucket_page_ids (KeyToDirectoryIndex d hash)
            ∧ (splitInsertDir d hash imagePid).local_depths j
              = d.local_depths (KeyToDirectoryIndex d hash) + 1)
         ∧ (j &&& ((1 <<< (d.local_depths (KeyToDirectoryIndex d hash)
                + 1)) - 1)
            = (KeyToDirectoryIndex d hash
               ^^^ (1 <<< d.local_depths (KeyToDirectoryIndex d hash)))
              &&& ((1 <<< (d.local_depths (KeyToDirectoryIndex d hash)
                   + 1)) - 1) →
            (splitInsertDir d hash imagePid).bucket_page_ids j = imagePid
            ∧ (splitInsertDir d hash imagePid).local_depths j
              = d.local_depths (KeyToDirectoryIndex d hash) + 1)) := by
  have hpos : (0 : Nat) < 2 ^ d.global_depth :=
    Nat.pos_pow_of_pos _ (by omega)
  have hKTD : KeyToDirectoryIndex d hash = hash % 2 ^ d.global_depth := by
    rw [KeyToDirectoryIndex, HashTableDirectoryPage.GetGlobalDepthMask,
      and_mask_eq_mod]
  by_cases hg : d.local_depths (KeyToDirectoryIndex d hash)
      < MAX_BUCKET_DEPTH
  case neg =>
    have hid : splitInsertDir d hash imagePid = d := by
      rw [splitInsertDir]
      rw [if_pos (by omega)]
    refine ⟨by rw [hid]; exact hInv, fun hg2 => absurd hg2 hg⟩
  case pos =>
    set sbi := hash % 2 ^ d.global_depth with hsbidef
    set ld := d.local_depths sbi with hlddef
    have hsbilt : sbi < 2 ^ d.global_depth := Nat.mod_lt _ hpos
    have hldle : ld ≤ d.global_depth :=
      ((dirInvariant_mod d).mp hInv sbi hsbilt).1
    set dA := if ld = d.global_depth then d.IncrGlobalDepth else d
      with hdAdef
    set G := dA.global_depth with hGdef
    have hguard : ld < MAX_BUCKET_DEPTH := by
      rw [hlddef, ← hKTD]
      exact hg
    obtain ⟨hdesc1, hdesc2, hdesc3, hdesc4⟩ := splitInsertDir_desc d hash
      imagePid sbi ld G dA hsbidef hlddef hldle hguard hdAdef hGdef
    have hgdA : G = if ld = d.global_depth then d.global_depth + 1
        else d.global_depth := by
      rw [hGdef, hdAdef]
      by_cases h : ld = d.global_depth <;> simp [h, incrG_gd]
    have hldG : ld < G := by
      rw [hgdA]
      by_cases h : ld = d.global_depth
      · simp [h]
      · simp only [h, if_false]
        omega
    have hgdleG : d.global_depth ≤ G := by
      rw [hgdA]
      by_cases h : ld = d.global_depth <;> simp [h]
    have hsbiltG : sbi < 2 ^ G :=
      lt_of_lt_of_le hsbilt (Nat.pow_le_pow_right (by omega) hgdleG)
    have hInvA : DirInvariant dA := by
      rw [hdAdef]
      by_cases h : ld = d.global_depth
      · rw [if_pos h]
        exact incrG_invariant d hInv
      · rw [if_neg h]
        exact hInv
    have hInvA' := (dirInvariant_mod dA).mp hInvA
    rw [← hGdef] at hInvA'
    have hdAdep_sbi : dA.local_depths sbi = ld := by
      rw [hdAdef]
      by_cases h : ld = d.global_depth
      · rw [if_pos h]
        have hk2 : sbi < 2 ^ (d.global_depth + 1) :=
          lt_trans hsbilt (Nat.pow_lt_pow_right (by omega) (by omega))
        rw [(incrG_apply d hk2).2, Nat.mod_eq_of_lt hsbilt, hlddef]
      · rw [if_neg h, hlddef]
    have hgsz : (splitInsertDir d hash imagePid).size = 2 ^ G := by
      rw [HashTableDirectoryPage.size, shiftLeft_one_eq, hdesc1]
    have hdvd_succ : (2 : Nat) ^ ld ∣ 2 ^ (ld + 1) :=
      pow_dvd_pow 2 (Nat.le_succ ld)
    -- membership in either new class forces the old split class mod 2^ld
    have hclass_old : ∀ j, (j % 2 ^ (ld + 1) = sbi % 2 ^ (ld + 1)
        ∨ j % 2 ^ (ld + 1) = (sbi ^^^ 2 ^ ld) % 2 ^ (ld + 1)) →
        j % 2 ^ ld = sbi % 2 ^ ld := by
      intro j hj
      rcases hj with hj | hj
      · have h2 : j % 2 ^ (ld + 1) % 2 ^ ld
            = sbi % 2 ^ (ld + 1) % 2 ^ ld := by rw [hj]
        rwa [Nat.mod_mod_of_dvd _ hdvd_succ,
          Nat.mod_mod_of_dvd _ hdvd_succ] at h2
      · have h2 : j % 2 ^ (ld + 1) % 2 ^ ld
            = (sbi ^^^ 2 ^ ld) % 2 ^ (ld + 1) % 2 ^ ld := by rw [hj]
        rw [Nat.mod_mod_of_dvd _ hdvd_succ,
          Nat.mod_mod_of_dvd _ hdvd_succ, xor_two_pow_mod] at h2
        exact h2
    constructor
    · -- the invariant is preserved
      rw [dirInvariant_mod, hdesc1]
      intro i hi
      by_cases hiS : i % 2 ^ (ld + 1) = sbi % 2 ^ (ld + 1)
      · obtain ⟨hidsi, hdepi⟩ := hdesc2 i hi hiS
        refine ⟨by rw [hdepi]; omega, ?_⟩
        intro j hj hmod
        rw [hdepi] at hmod
        obtain ⟨hidsj, hdepj⟩ := hdesc2 j hj (by rw [hmod, hiS])
        exact ⟨by rw [hidsj, hidsi], by rw [hdepj, hdepi]⟩
      · by_cases hiI : i % 2 ^ (ld + 1)
            = (sbi ^^^ 2 ^ ld) % 2 ^ (ld + 1)
        · obtain ⟨hidsi, hdepi⟩ := hdesc3 i hi hiI
          refine ⟨by rw [hdepi]; omega, ?_⟩
          intro j hj hmod
          rw [hdepi] at hmod
          obtain ⟨hidsj, hdepj⟩ := hdesc3 j hj (by rw [hmod, hiI])
          exact ⟨by rw [hidsj, hidsi], by rw [hdepj, hdepi]⟩
        · obtain ⟨hidsi, hdepi⟩ := hdesc4 i hiS hiI
          have hiA := hInvA' i hi
          refine ⟨by rw [hdepi]; exact hiA.1, ?_⟩
          intro j hj hmod
          rw [hdepi] at hmod
          -- j is in neither new class
          have hjout : j % 2 ^ (ld + 1) ≠ sbi % 2 ^ (ld + 1)
              ∧ j % 2 ^ (ld + 1) ≠ (sbi ^^^ 2 ^ ld) % 2 ^ (ld + 1) := by
            constructor <;> intro hjc
            all_goals {
              have hjold : j % 2 ^ ld = sbi % 2 ^ ld :=
                hclass_old j (by tauto)
              have hdj_ld : dA.local_depths j = ld := by
                have := (hInvA' sbi hsbiltG).2 j hj
                  (by rw [hdAdep_sbi]; exact hjold)
                rw [this.2, hdAdep_sbi]
              have hdj_di : dA.local_depths j = dA.local_depths i :=
                ((hInvA' i hi).2 j hj hmod).2
              have hdi_ld : dA.local_depths i = ld := by
                rw [← hdj_di, hdj_ld]
              have himod : i % 2 ^ ld = sbi % 2 ^ ld := by
                rw [hdi_ld] at hmod
                rw [← hmod, hjold]
              rcases (mod_class_split i sbi ld).mp himod with hc | hc
              · exact hiS hc
              · exact hiI hc
            }
          obtain ⟨hidsj, hdepj⟩ := hdesc4 j hjout.1 hjout.2
          obtain ⟨hidsA, hdepA⟩ := (hInvA' i hi).2 j hj hmod
          exact ⟨by rw [hidsj, hidsi]; exact hidsA,
                 by rw [hdepj, hdepi]; exact hdepA⟩
    · -- the partition clause
      intro _ j hj
      rw [hgsz] at hj
      rw [hKTD, ← hlddef]
      constructor
      · intro hmask
        rw [and_mask_eq_mod, and_mask_eq_mod] at hmask
        exact hdesc2 j hj hmask
      · intro hmask
        rw [and_mask_eq_mod, and_mask_eq_mod, shiftLeft_one_eq] at hmask
        exact hdesc3 j hj hmask

/-- A concrete directory satisfying the invariant: global depth 2,
bucket page 2 covering slots {0, 2} and bucket page 3 covering slots
{1, 3}, both with local depth 1. -/
def dirSampleC1 : HashTableDirectoryPage :=
  { global_depth := 2,
    bucket_page_ids := fun j => if j % 2 = 1 then 3 else 2,
    local_depths := fun _ => 1 }

/-- C1 counterexample to the claim as stated: splitting on a key with
hash 3 (split slot 3, old local depth 1, `new_ld = 2`) rewrites the
split partition {1, 3}; slot 1 has bit `new_ld − 1 = 1` equal to 0, so
the claim says it must point to the original bucket (page 3) — but the
code points it at the freshly allocated image page 9 (and slot 3, whose
bit 1 is 1, keeps the original page 3): the original stays on the split
slot's side of the partition, whichever bit value that is. -/
theorem C1_bit_direction_refuted :
    DirInvariant dirSampleC1
    ∧ KeyToDirectoryIndex dirSampleC1 3 = 3
    ∧ dirSampleC1.local_depths 3 = 1
    ∧ KeyToPageId dirSampleC1 3 = 3
    ∧ (1 : Nat) &&& ((1 <<< 1) - 1) = 3 &&& ((1 <<< 1) - 1)
    ∧ Nat.testBit 1 1 = false
    ∧ (splitInsertDir dirSampleC1 3 9).bucket_page_ids 1 = 9
    ∧ Nat.testBit 3 1 = true
    ∧ (splitInsertDir dirSampleC1 3 9).bucket_page_ids 3 = 3
    ∧ (9 : Int) ≠ 3 := by decide

/-- Witness for C1 (amended) on `dirSampleC1`: the invariant holds
after the split, and slot 3 (the split slot's class) keeps the original
bucket page 3. -/
theorem C1_split_insert_invariant_witness :
    DirInvariant (splitInsertDir dirSampleC1 3 9)
    ∧ (splitInsertDir dirSampleC1 3 9).bucket_page_ids 3 = 3 := by
  have h := C1_split_insert_invariant dirSampleC1 3 9 (by decide)
  refine ⟨h.1, ?_⟩
  exact ((h.2 (by decide) 3 (by decide)).1 (by decide)).1

end StorageCore
